import Mathlib

/-!
Verification of the Decision Sherlock model-response normalization pipeline.

Shallow embedding of the TypeScript sources:
  * src/decisionSherlock.ts.tsx  (clampScore, safeParseJSON, marker-delimited
    JSON extraction, result normalization, winner inference, API-key handling)
  * src/services/geminiService.ts (extractRawText)

JavaScript runtime values are modelled by the inductive `JSValue`; JavaScript
numbers are modelled by exact rationals together with NaN and the two
infinities (`JNum`).  Fallible steps return `Except`.
-/

set_option maxRecDepth 4000

namespace Sherlock

/-- An executable rational: an unnormalized fraction `num / den`.  All
fractions built by the pipeline have a positive denominator; the value is
read off through `JQ.toRat`.  (Mathlib's `ℚ` is not used inside executable
definitions because its arithmetic does not reduce in the kernel; the
bridge lemmas below connect `JQ` to `ℚ`.) -/
structure JQ where
  num : ℤ
  den : ℕ
deriving DecidableEq

/-- The rational value of a `JQ` fraction. -/
def JQ.toRat (a : JQ) : ℚ := (a.num : ℚ) / (a.den : ℚ)

/-- Embed an integer. -/
def JQ.ofInt (n : ℤ) : JQ := ⟨n, 1⟩

/-- Embed a natural number. -/
def JQ.ofNat (n : ℕ) : JQ := ⟨(n : ℤ), 1⟩

/-- Exact addition of fractions. -/
def JQ.add (a b : JQ) : JQ := ⟨a.num * b.den + b.num * a.den, a.den * b.den⟩

/-- Negation. -/
def JQ.neg (a : JQ) : JQ := ⟨-a.num, a.den⟩

/-- Division by a natural number. -/
def JQ.divNat (a : JQ) (m : ℕ) : JQ := ⟨a.num, a.den * m⟩

/-- Multiplication by a natural number. -/
def JQ.mulNat (a : JQ) (m : ℕ) : JQ := ⟨a.num * m, a.den⟩

/-- `a < 0` (for positive denominators). -/
def JQ.isNeg (a : JQ) : Bool := decide (a.num < 0)

/-- `100 < a` (for positive denominators). -/
def JQ.gt100 (a : JQ) : Bool := decide (100 * (a.den : ℤ) < a.num)

/-- `a = 0` (for positive denominators). -/
def JQ.isZero (a : JQ) : Bool := decide (a.num = 0)

/-- `a ≤ b` by cross multiplication (for positive denominators). -/
def JQ.ble (a b : JQ) : Bool := decide (a.num * b.den ≤ b.num * a.den)

/-- `Math.round a = ⌊a + 1/2⌋`, computed by floor division
(`Int.fdiv (2 num + den) (2 den)`). -/
def jround (a : JQ) : ℤ := Int.fdiv (2 * a.num + a.den) (2 * a.den)

/-- Model of a JavaScript runtime value as produced by `JSON.parse` and
handled by the pipeline.  `vUndefined` and `vNaN` cannot appear in parsed
JSON but arise from property accesses and numeric coercions. -/
inductive JSValue where
  | vNull : JSValue
  | vUndefined : JSValue
  | vBool : Bool → JSValue
  | vNum : JQ → JSValue
  | vNaN : JSValue
  | vStr : String → JSValue
  | vArr : List JSValue → JSValue
  | vObj : List (String × JSValue) → JSValue

/-- The left brace character (written via its code point). -/
def lbrace : Char := Char.ofNat 123

/-- The right brace character (written via its code point). -/
def rbrace : Char := Char.ofNat 125

/-- The backtick character (written via its code point). -/
def btick : Char := Char.ofNat 96

/-- JS nullish test (`null` or `undefined`). -/
def JSValue.isNullish : JSValue → Bool
  | .vNull => true
  | .vUndefined => true
  | _ => false

/-- JS truthiness. -/
def jsTruthy : JSValue → Bool
  | .vNull => false
  | .vUndefined => false
  | .vBool b => b
  | .vNum q => !q.isZero
  | .vNaN => false
  | .vStr s => decide (s ≠ "")
  | .vArr _ => true
  | .vObj _ => true

/-- JS nullish coalescing `a ?? b`. -/
def jsCoalesce (a b : JSValue) : JSValue :=
  if a.isNullish then b else a

/-- JS logical or `a || b`. -/
def jsOr (a b : JSValue) : JSValue :=
  if jsTruthy a then a else b

/-- Last-binding lookup of a property in an object's field list (later
duplicate keys shadow earlier ones, as after `JSON.parse`). -/
def jsLookup (fields : List (String × JSValue)) (name : String) : Option JSValue :=
  match fields with
  | [] => none
  | (k, v) :: rest =>
    match jsLookup rest name with
    | some w => some w
    | none => if k = name then some v else none

/-- Property access `v.name` on a value known to be non-nullish: yields the
field of an object, `undefined` otherwise (JS property access on primitives
and arrays with a non-index key). -/
def jsGetD (v : JSValue) (name : String) : JSValue :=
  match v with
  | .vObj fields => (jsLookup fields name).getD .vUndefined
  | _ => .vUndefined

/-- Property access `v.name` as performed by the source: raises a TypeError
(modelled by `Except.error`) when the receiver is `null` or `undefined`. -/
def jsGetField (v : JSValue) (name : String) : Except Unit JSValue :=
  match v with
  | .vNull => .error ()
  | .vUndefined => .error ()
  | _ => .ok (jsGetD v name)

/- ----------------------------------------------------------------
   Numeric coercion: JS `Number(...)` and `Math.round`.
   ---------------------------------------------------------------- -/

/-- A JavaScript number: NaN, ±Infinity, or a finite value (exact rational). -/
inductive JNum where
  | nan : JNum
  | posInf : JNum
  | negInf : JNum
  | fin : JQ → JNum
deriving DecidableEq

/-- White-space for JS `String.prototype.trim` and `Number(string)`. -/
def isJsWs (c : Char) : Bool :=
  c = ' ' || c = '\t' || c = '\n' || c = '\r' || c = Char.ofNat 11 || c = Char.ofNat 12

/-- Decimal digit test. -/
def isDigit (c : Char) : Bool := '0' ≤ c && c ≤ '9'

/-- Digit value of a decimal digit character. -/
def digitVal (c : Char) : ℕ := c.toNat - 48

/-- Natural number denoted by a list of decimal digits. -/
def digitsToNat (l : List Char) : ℕ :=
  l.foldl (fun acc c => acc * 10 + digitVal c) 0

/-- Parse an unsigned decimal literal `digits [. digits] [e [sign] digits]`
after the sign of a JS numeric string; at least one digit must be present
on one side of the dot.  Returns the denoted rational. -/
def parseDecimalBody (l : List Char) : Option JQ :=
  let intDigits := l.takeWhile isDigit
  let rest1 := l.dropWhile isDigit
  let (fracDigits, rest2) :=
    match rest1 with
    | '.' :: tl => (tl.takeWhile isDigit, tl.dropWhile isDigit)
    | _ => ([], rest1)
  if intDigits.isEmpty && fracDigits.isEmpty then none
  else
    let mantissa : JQ :=
      JQ.add (JQ.ofNat (digitsToNat intDigits))
        (JQ.divNat (JQ.ofNat (digitsToNat fracDigits)) (10 ^ fracDigits.length))
    match rest2 with
    | [] => some mantissa
    | 'e' :: tl => parseExp mantissa tl
    | 'E' :: tl => parseExp mantissa tl
    | _ => none
where
  parseExp (m : JQ) (tl : List Char) : Option JQ :=
    let (neg, ds) :=
      match tl with
      | '+' :: ds => (false, ds)
      | '-' :: ds => (true, ds)
      | ds => (false, ds)
    if ds.isEmpty || !(ds.all isDigit) then none
    else
      let e := digitsToNat ds
      some (if neg then m.divNat (10 ^ e) else m.mulNat (10 ^ e))

/-- Hex digit value, if any. -/
def hexVal (c : Char) : Option ℕ :=
  if isDigit c then some (digitVal c)
  else if 'a' ≤ c && c ≤ 'f' then some (c.toNat - 87)
  else if 'A' ≤ c && c ≤ 'F' then some (c.toNat - 55)
  else none

/-- Value of a radix literal body given a per-digit parser. -/
def radixToNat (base : ℕ) (dv : Char → Option ℕ) (l : List Char) : Option ℕ :=
  match l with
  | [] => none
  | _ =>
    l.foldl (fun acc c =>
      match acc, dv c with
      | some a, some d => some (a * base + d)
      | _, _ => none) (some 0)

/-- JS `Number(string)`: trims white-space; empty → 0; `Infinity` forms;
`0x`/`0o`/`0b` radix literals; otherwise a signed decimal literal; anything
else is NaN. -/
def strToNumber (s : String) : JNum :=
  let l := ((s.data.dropWhile isJsWs).reverse.dropWhile isJsWs).reverse
  match l with
  | [] => .fin (JQ.ofInt 0)
  | _ =>
    if l = ("Infinity".data) || l = ("+Infinity".data) then .posInf
    else if l = ("-Infinity".data) then .negInf
    else
      match l with
      | '0' :: 'x' :: tl => (radixToNat 16 hexVal tl).elim .nan (fun n => .fin (JQ.ofNat n))
      | '0' :: 'X' :: tl => (radixToNat 16 hexVal tl).elim .nan (fun n => .fin (JQ.ofNat n))
      | '0' :: 'o' :: tl =>
        (radixToNat 8 (fun c => if '0' ≤ c && c ≤ '7' then some (digitVal c) else none) tl).elim
          .nan (fun n => .fin (JQ.ofNat n))
      | '0' :: 'b' :: tl =>
        (radixToNat 2 (fun c => if c = '0' || c = '1' then some (digitVal c) else none) tl).elim
          .nan (fun n => .fin (JQ.ofNat n))
      | '+' :: tl => (parseDecimalBody tl).elim .nan .fin
      | '-' :: tl => (parseDecimalBody tl).elim .nan (fun q => .fin q.neg)
      | _ => (parseDecimalBody l).elim .nan .fin

/-- Decimal digits of a natural number (fuelled helper). -/
def natDigitsAux : ℕ → ℕ → List Char → List Char
  | 0, _, acc => acc
  | fuel + 1, n, acc =>
    let d := Char.ofNat (48 + n % 10)
    if n < 10 then d :: acc else natDigitsAux fuel (n / 10) (d :: acc)

/-- Decimal representation of a natural number. -/
def natToStr (n : ℕ) : String := String.mk (natDigitsAux (n + 1) n [])

/-- Decimal representation of an integer (as JS renders integral numbers). -/
def intToStr (i : ℤ) : String :=
  if i < 0 then "-" ++ natToStr i.natAbs else natToStr i.natAbs

/-- String rendering of a JS number.  The integral case is exact; the
pipeline's claims only exercise integral numbers, so the non-integral case
is rendered as `num/den` (an approximation of JS decimal output). -/
def numToString (q : JQ) : String :=
  if q.den = 1 then intToStr q.num
  else intToStr q.num ++ "/" ++ natToStr q.den

mutual

/-- JS `String(v)` coercion. -/
def jsToString : JSValue → String
  | .vNull => "null"
  | .vUndefined => "undefined"
  | .vBool b => if b then "true" else "false"
  | .vNum q => numToString q
  | .vNaN => "NaN"
  | .vStr s => s
  | .vArr xs => jsArrJoin xs
  | .vObj _ => "[object Object]"

/-- JS array-to-string: elements joined by commas, nullish elements empty. -/
def jsArrJoin : List JSValue → String
  | [] => ""
  | [x] => jsArrElem x
  | x :: y :: rest => jsArrElem x ++ "," ++ jsArrJoin (y :: rest)

/-- A single array element under array `join`: nullish becomes the empty
string, any other value its `String(...)` coercion. -/
def jsArrElem : JSValue → String
  | .vNull => ""
  | .vUndefined => ""
  | .vBool b => if b then "true" else "false"
  | .vNum q => numToString q
  | .vNaN => "NaN"
  | .vStr s => s
  | .vArr xs => jsArrJoin xs
  | .vObj _ => "[object Object]"

end

/-- JS `Number(v)` coercion.  Objects and arrays coerce through their string
form (`Number(v) = Number(String(v))` for plain arrays/objects). -/
def jsToNumber : JSValue → JNum
  | .vNull => .fin (JQ.ofInt 0)
  | .vUndefined => .nan
  | .vBool b => .fin (JQ.ofInt (if b then 1 else 0))
  | .vNum q => .fin q
  | .vNaN => .nan
  | .vStr s => strToNumber s
  | .vArr xs => strToNumber (jsToString (.vArr xs))
  | .vObj fs => strToNumber (jsToString (.vObj fs))

/- ----------------------------------------------------------------
   JSON.stringify
   ---------------------------------------------------------------- -/

/-- Four-digit hex rendering of a code point below 0x10000. -/
def hex4 (n : ℕ) : List Char :=
  let dig := fun k => if k < 10 then Char.ofNat (48 + k) else Char.ofNat (87 + k)
  [dig (n / 4096 % 16), dig (n / 256 % 16), dig (n / 16 % 16), dig (n % 16)]

/-- JSON string escaping of a single character. -/
def escapeJsonChar (c : Char) : List Char :=
  if c = '"' then ['\\', '"']
  else if c = '\\' then ['\\', '\\']
  else if c = '\n' then ['\\', 'n']
  else if c = '\r' then ['\\', 'r']
  else if c = '\t' then ['\\', 't']
  else if c.toNat < 32 then '\\' :: 'u' :: hex4 c.toNat
  else [c]

/-- JSON quoting of a string. -/
def quoteJson (s : String) : String :=
  String.mk ('"' :: s.data.foldr (fun c acc => escapeJsonChar c ++ acc) ['"'])

mutual

/-- `JSON.stringify(v)`: `none` models the JS result `undefined` (top-level
`undefined`); `NaN` serializes as `null`; `undefined` array elements as
`null`; `undefined`-valued object properties are omitted. -/
def jsonStringify : JSValue → Option String
  | .vNull => some "null"
  | .vUndefined => none
  | .vBool b => some (if b then "true" else "false")
  | .vNum q => some (numToString q)
  | .vNaN => some "null"
  | .vStr s => some (quoteJson s)
  | .vArr xs => some ("[" ++ stringifyElems xs ++ "]")
  | .vObj fs => some (String.mk [lbrace] ++ stringifyFields fs ++ String.mk [rbrace])

/-- Array elements under `JSON.stringify`, comma separated. -/
def stringifyElems : List JSValue → String
  | [] => ""
  | [x] => (jsonStringify x).getD "null"
  | x :: y :: rest => (jsonStringify x).getD "null" ++ "," ++ stringifyElems (y :: rest)

/-- Object members under `JSON.stringify`, comma separated, undefined
values omitted. -/
def stringifyFields : List (String × JSValue) → String
  | [] => ""
  | (k, v) :: rest =>
    match jsonStringify v, stringifyFields rest with
    | none, s => s
    | some sv, "" => quoteJson k ++ ":" ++ sv
    | some sv, s => quoteJson k ++ ":" ++ sv ++ "," ++ s

end

/- ----------------------------------------------------------------
   JSON.parse (strict JSON grammar, recursive descent with fuel)
   ---------------------------------------------------------------- -/

/-- Strict JSON white-space. -/
def isJsonWs (c : Char) : Bool :=
  c = ' ' || c = '\t' || c = '\n' || c = '\r'

/-- Skip JSON white-space. -/
def skipWs (l : List Char) : List Char := l.dropWhile isJsonWs

/-- Parse the body of a JSON string after the opening quote; returns the
decoded string and the rest of the input. -/
def parseStringBody : List Char → Option (String × List Char)
  | [] => none
  | '"' :: rest => some ("", rest)
  | '\\' :: esc =>
    match esc with
    | '"' :: rest => (parseStringBody rest).map (fun (s, r) => (String.mk ('"' :: s.data), r))
    | '\\' :: rest => (parseStringBody rest).map (fun (s, r) => (String.mk ('\\' :: s.data), r))
    | '/' :: rest => (parseStringBody rest).map (fun (s, r) => (String.mk ('/' :: s.data), r))
    | 'b' :: rest => (parseStringBody rest).map (fun (s, r) => (String.mk (Char.ofNat 8 :: s.data), r))
    | 'f' :: rest => (parseStringBody rest).map (fun (s, r) => (String.mk (Char.ofNat 12 :: s.data), r))
    | 'n' :: rest => (parseStringBody rest).map (fun (s, r) => (String.mk ('\n' :: s.data), r))
    | 'r' :: rest => (parseStringBody rest).map (fun (s, r) => (String.mk ('\r' :: s.data), r))
    | 't' :: rest => (parseStringBody rest).map (fun (s, r) => (String.mk ('\t' :: s.data), r))
    | 'u' :: a :: b :: c :: d :: rest =>
      match hexVal a, hexVal b, hexVal c, hexVal d with
      | some ha, some hb, some hc, some hd =>
        let n := ha * 4096 + hb * 256 + hc * 16 + hd
        let ch := if n < 0xd800 || 0xdfff < n then Char.ofNat n else Char.ofNat 0xfffd
        (parseStringBody rest).map (fun (s, r) => (String.mk (ch :: s.data), r))
      | _, _, _, _ => none
    | _ => none
  | c :: rest =>
    if c.toNat < 32 then none
    else (parseStringBody rest).map (fun (s, r) => (String.mk (c :: s.data), r))

/-- Parse a JSON number at the head of the input (strict JSON grammar:
`-? (0 | [1-9][0-9]*) (. [0-9]+)? ([eE] [+-]? [0-9]+)?`). -/
def parseJsonNumber (l : List Char) : Option (JQ × List Char) :=
  let (neg, l1) := match l with
    | '-' :: tl => (true, tl)
    | _ => (false, l)
  let intDigits := l1.takeWhile isDigit
  let rest1 := l1.dropWhile isDigit
  let okInt : Bool :=
    match intDigits with
    | [] => false
    | ['0'] => true
    | '0' :: _ => false
    | _ => true
  if !okInt then none
  else
    let (fracDigits, rest2) :=
      match rest1 with
      | '.' :: tl =>
        match tl.takeWhile isDigit with
        | [] => ([], '.' :: tl)
        | ds => (ds, tl.dropWhile isDigit)
      | _ => ([], rest1)
    -- a dot with no digits after it is a syntax error in JSON
    match rest1, fracDigits with
    | '.' :: _, [] => none
    | _, _ =>
      let mant : JQ :=
        JQ.add (JQ.ofNat (digitsToNat intDigits))
          (JQ.divNat (JQ.ofNat (digitsToNat fracDigits)) (10 ^ fracDigits.length))
      let withExp : Option (JQ × List Char) :=
        match rest2 with
        | 'e' :: tl => parseJsonExp mant tl
        | 'E' :: tl => parseJsonExp mant tl
        | _ => some (mant, rest2)
      withExp.map (fun (q, r) => (if neg then q.neg else q, r))
where
  parseJsonExp (m : JQ) (tl : List Char) : Option (JQ × List Char) :=
    let (eneg, ds0) := match tl with
      | '+' :: ds => (false, ds)
      | '-' :: ds => (true, ds)
      | ds => (false, ds)
    match ds0.takeWhile isDigit with
    | [] => none
    | ds =>
      let e := digitsToNat ds
      some (if eneg then m.divNat (10 ^ e) else m.mulNat (10 ^ e), ds0.dropWhile isDigit)

mutual

/-- Parse one JSON value (leading white-space allowed); fuelled. -/
def parseValue : ℕ → List Char → Option (JSValue × List Char)
  | 0, _ => none
  | fuel + 1, l =>
    match skipWs l with
    | [] => none
    | 't' :: 'r' :: 'u' :: 'e' :: rest => some (.vBool true, rest)
    | 'f' :: 'a' :: 'l' :: 's' :: 'e' :: rest => some (.vBool false, rest)
    | 'n' :: 'u' :: 'l' :: 'l' :: rest => some (.vNull, rest)
    | '"' :: rest => (parseStringBody rest).map (fun (s, r) => (.vStr s, r))
    | c :: rest =>
      if c = lbrace then
        match skipWs rest with
        | [] => none
        | d :: rest2 =>
          if d = rbrace then some (.vObj [], rest2)
          else parseMembers fuel (d :: rest2)
      else if c = '[' then
        match skipWs rest with
        | ']' :: rest2 => some (.vArr [], rest2)
        | l2 => parseElems fuel l2
      else
        (parseJsonNumber (c :: rest)).map (fun (q, r) => (.vNum q, r))

/-- Parse the members of a JSON object (first member expected next);
consumes through the closing brace. -/
def parseMembers : ℕ → List Char → Option (JSValue × List Char)
  | 0, _ => none
  | fuel + 1, l =>
    match skipWs l with
    | '"' :: rest =>
      match parseStringBody rest with
      | none => none
      | some (key, r1) =>
        match skipWs r1 with
        | ':' :: r2 =>
          match parseValue fuel r2 with
          | none => none
          | some (v, r3) =>
            match skipWs r3 with
            | ',' :: r4 =>
              match parseMembers fuel r4 with
              | some (.vObj fs, r5) => some (.vObj ((key, v) :: fs), r5)
              | _ => none
            | d :: r4 =>
              if d = rbrace then some (.vObj [(key, v)], r4) else none
            | [] => none
        | _ => none
    | _ => none

/-- Parse the elements of a JSON array (first element expected next);
consumes through the closing bracket. -/
def parseElems : ℕ → List Char → Option (JSValue × List Char)
  | 0, _ => none
  | fuel + 1, l =>
    match parseValue fuel l with
    | none => none
    | some (v, r1) =>
      match skipWs r1 with
      | ',' :: r2 =>
        match parseElems fuel r2 with
        | some (.vArr xs, r3) => some (.vArr (v :: xs), r3)
        | _ => none
      | ']' :: r2 => some (.vArr [v], r2)
      | _ => none

end

/-- `JSON.parse`: parse a complete JSON text (only white-space may follow
the value). -/
def jsonParse (l : List Char) : Option JSValue :=
  match parseValue (l.length + 1) l with
  | some (v, rest) => if skipWs rest = [] then some v else none
  | none => none

/-- `clampScore` from src/decisionSherlock.ts.tsx lines 78-84:
`const v = Number(n || 0); if (isNaN(v)) return 0; if (v < 0) return 0;
if (v > 100) return 100; return Math.round(v);`
(`Math.round x = ⌊x + 1/2⌋`, which is Mathlib's `round`; `+Infinity` falls
into the `v > 100` branch, `-Infinity` into the `v < 0` branch). -/
def clampScore (n : JSValue) : ℤ :=
  match jsToNumber (jsOr n (.vNum (JQ.ofInt 0))) with
  | .nan => 0
  | .negInf => 0
  | .posInf => 100
  | .fin v => if v.isNeg then 0 else if v.gt100 then 100 else jround v

/- ----------------------------------------------------------------
   safeParseJSON (src/decisionSherlock.ts.tsx lines 54-75)
   ---------------------------------------------------------------- -/

/-- Fuelled scanner for one global-regex pass of
`text.replace(/,\s*CLOSE/g, "CLOSE")`: each non-overlapping occurrence of a
comma, optional white-space and the closing character is replaced by the
closing character, the scan resuming after the replacement.  (Fuel is
structural so the definition evaluates in the kernel; `l.length` fuel is
always enough since every step consumes at least one character.) -/
def replaceCommaCloseAux (close : Char) : ℕ → List Char → List Char
  | 0, l => l
  | _ + 1, [] => []
  | fuel + 1, ',' :: rest =>
    match (rest.dropWhile isJsWs).head? with
    | some c =>
      if c = close then close :: replaceCommaCloseAux close fuel ((rest.dropWhile isJsWs).tail)
      else ',' :: replaceCommaCloseAux close fuel rest
    | none => ',' :: replaceCommaCloseAux close fuel rest
  | fuel + 1, c :: rest => c :: replaceCommaCloseAux close fuel rest

/-- One global-regex pass of `text.replace(/,\s*CLOSE/g, "CLOSE")`. -/
def replaceCommaClose (close : Char) (l : List Char) : List Char :=
  replaceCommaCloseAux close l.length l

/-- The cleaning step of `safeParseJSON`:
`text.replace(/,\s*\x7d/g, "\x7d").replace(/,\s*\]/g, "]")`. -/
def stripTrailingCommas (l : List Char) : List Char :=
  replaceCommaClose ']' (replaceCommaClose rbrace l)

/-- The greedy first-`\x7b`-to-last-`\x7d` block matched by the regex
`(\x7b[\s\S]*\x7d)`: the regex matches starting at the first left brace
having some right brace after it, and greedily extends to the last right
brace of the text. -/
def braceBlock (l : List Char) : Option (List Char) :=
  match l.findIdx? (· = lbrace) with
  | none => none
  | some i =>
    let tail := l.drop i
    match tail.reverse.findIdx? (· = rbrace) with
    | none => none
    | some k => some (tail.take (tail.length - k))

/-- `safeParseJSON` (src/decisionSherlock.ts.tsx lines 54-75): strict parse;
on failure parse after removing trailing commas; on failure extract the
first brace block of the cleaned text by regex and parse that; otherwise
fail. -/
def safeParseJSON (text : List Char) : Except Unit JSValue :=
  match jsonParse text with
  | some v => .ok v
  | none =>
    let cleaned := stripTrailingCommas text
    match jsonParse cleaned with
    | some v => .ok v
    | none =>
      match braceBlock cleaned with
      | some m =>
        match jsonParse m with
        | some v => .ok v
        | none => .error ()
      | none => .error ()

/- ----------------------------------------------------------------
   Marker-delimited JSON extraction
   (src/decisionSherlock.ts.tsx lines 343-361)
   ---------------------------------------------------------------- -/

/-- The sentinel marker `###RESULT_JSON###`. -/
def markerChars : List Char := ("###RESULT_JSON###".data)

/-- JS `String.prototype.trim`. -/
def jsTrim (l : List Char) : List Char :=
  ((l.dropWhile isJsWs).reverse.dropWhile isJsWs).reverse

/-- `rawText.indexOf(marker)` followed by
`rawText.substring(markerIndex + marker.length)`: the suffix after the
first occurrence of the marker, if any. -/
def splitAfterMarker (marker : List Char) : List Char → Option (List Char)
  | [] => if marker.isEmpty then some [] else none
  | c :: rest =>
    if marker.isPrefixOf (c :: rest) then some ((c :: rest).drop marker.length)
    else splitAfterMarker marker rest

/-- Case-insensitive ASCII lowering. -/
def charLower (c : Char) : Char :=
  if 'A' ≤ c && c ≤ 'Z' then Char.ofNat (c.toNat + 32) else c

/-- Strip `pre` (already lower-case) from the head of `l`, comparing
case-insensitively; `none` when it is not a prefix. -/
def stripPrefixCI : List Char → List Char → Option (List Char)
  | [], l => some l
  | _ :: _, [] => none
  | p :: ps, c :: cs => if charLower c = p then stripPrefixCI ps cs else none

/-- `candidate.replace(/^((```))json\s*÷/i, "")` (fence spelled with backticks):
strip a leading backtick fence with `json` tag and following white-space. -/
def stripLeadingFenceJson (l : List Char) : List Char :=
  match stripPrefixCI (btick :: btick :: btick :: ('j' :: 's' :: 'o' :: 'n' :: [])) l with
  | some rest => rest.dropWhile isJsWs
  | none => l

/-- `candidate.replace(/^((```))\s*÷/i, "")`: strip a leading bare backtick
fence and following white-space. -/
def stripLeadingFenceBare (l : List Char) : List Char :=
  match stripPrefixCI [btick, btick, btick] l with
  | some rest => rest.dropWhile isJsWs
  | none => l

/-- `candidate.replace(/((```))\s*$/i, "")`: strip a trailing backtick fence
followed only by white-space. -/
def stripTrailingFence (l : List Char) : List Char :=
  let r := l.reverse.dropWhile isJsWs
  if r.take 3 = [btick, btick, btick] then (r.drop 3).reverse else l

/-- The whole fence-stripping applied to the substring after the marker:
trim, strip leading `json`-tagged fence, strip leading bare fence, strip
trailing fence, trim (the exact replace sequence of lines 349-351). -/
def cleanCandidate (after : List Char) : List Char :=
  jsTrim (stripTrailingFence (stripLeadingFenceBare (stripLeadingFenceJson (jsTrim after))))

/-- Errors surfaced by the analysis pipeline. -/
inductive PErr where
  | missingApiKey : PErr
  | extractFailed : PErr
  | noJsonFound : PErr
  | invalidJson : PErr
  | typeError : PErr
deriving DecidableEq

/-- Marker-delimited JSON extraction (src/decisionSherlock.ts.tsx lines
343-361): with the marker, the candidate is everything after it with fences
stripped; without it, the first-brace-to-last-brace block; an absent or
empty candidate raises the `NoJsonFound` error
(`"Model did not return extractable JSON"`). -/
def extractCandidate (rawText : List Char) : Except PErr (List Char) :=
  let jsonCandidate : Option (List Char) :=
    match splitAfterMarker markerChars rawText with
    | some after => some (cleanCandidate after)
    | none => braceBlock rawText
  match jsonCandidate with
  | none => .error .noJsonFound
  | some c => if c.isEmpty then .error .noJsonFound else .ok c

/- ----------------------------------------------------------------
   Result normalization (src/decisionSherlock.ts.tsx lines 375-437)
   ---------------------------------------------------------------- -/

/-- Normalized per-criterion record (interface ParsedCriteriaAnalysis).
`criteriaId` is stored exactly as resolved (the source applies no string
coercion to it); `reasoning` is coerced by `String(...)`; scores are
integers after `clampScore`. -/
structure ParsedCriteriaAnalysis where
  criteriaId : JSValue
  score : ℤ
  reasoning : String
  confidence : Option ℤ

/-- Normalized per-option record (interface ParsedOptionAnalysis). -/
structure ParsedOptionAnalysis where
  optionId : String
  criteriaAnalysis : List ParsedCriteriaAnalysis
  pros : List String
  cons : List String

/-- Normalized result (interface SherlockResult).  `verdict`, `winnerId`,
`recommendation`, `summary`, `topRisks` and `nextSteps` are stored as the
raw values the `??`-chains produce (the source applies no coercion). -/
structure SherlockResult where
  analysis : List ParsedOptionAnalysis
  verdict : JSValue
  winnerId : JSValue
  recommendation : JSValue
  summary : JSValue
  topRisks : JSValue
  nextSteps : JSValue

/-- `ensureAnalysisArray` (lines 375-383): falsy → `[]`; array → itself;
object with an array `analysis` field → that field; object with truthy
`optionId` and `criteriaAnalysis` → wrapped singleton; otherwise `[]`. -/
def ensureAnalysisArray (candidate : JSValue) : List JSValue :=
  if !jsTruthy candidate then []
  else
    match candidate with
    | .vArr xs => xs
    | _ =>
      match jsGetD candidate "analysis" with
      | .vArr xs => xs
      | _ =>
        if jsTruthy (jsGetD candidate "optionId") && jsTruthy (jsGetD candidate "criteriaAnalysis")
        then [candidate]
        else []

/-- Where the normalizer locates the criteria collection of one option
record (lines 404-406): `a.criteriaAnalysis ?? a.criteria_analysis ??
a.criteria ?? []`, kept only when array-shaped. -/
def locatedCriteria (a : JSValue) : List JSValue :=
  match jsCoalesce (jsGetD a "criteriaAnalysis") (jsCoalesce (jsGetD a "criteria_analysis")
    (jsCoalesce (jsGetD a "criteria") (.vArr []))) with
  | .vArr xs => xs
  | _ => []

/-- Where the normalizer locates the option-analysis collection for a
non-nullish root (line 385:
`ensureAnalysisArray(parsedRaw.analysis ?? parsedRaw)`). -/
def locatedAnalysis (v : JSValue) : List JSValue :=
  ensureAnalysisArray (jsCoalesce (jsGetD v "analysis") v)

/-- Normalization of one criteria-analysis entry (lines 408-413).  Reading a
property of a `null`/`undefined` entry raises a TypeError. -/
def normalizeCA (ca : JSValue) : Except Unit ParsedCriteriaAnalysis :=
  if ca.isNullish then .error ()
  else
    .ok
      { criteriaId :=
          jsCoalesce (jsGetD ca "criteriaId") (jsCoalesce (jsGetD ca "criteria_id")
            (jsCoalesce (jsGetD ca "criterionId") (jsCoalesce (jsGetD ca "id") (.vStr ""))))
        score :=
          clampScore (jsCoalesce (jsGetD ca "score") (jsCoalesce (jsGetD ca "sc")
            (jsCoalesce (jsGetD ca "value") ca)))
        reasoning :=
          jsToString (jsCoalesce (jsGetD ca "reasoning") (jsCoalesce (jsGetD ca "reason")
            (jsCoalesce (jsGetD ca "notes") (.vStr ""))))
        confidence :=
          match jsGetD ca "confidence" with
          | .vUndefined => none
          | v => some (clampScore v) }

/-- `Except`-valued map over a list, failing at the first error (models a
JS `Array.prototype.map` whose callback may throw). -/
def mapME (f : α → Except ε β) : List α → Except ε (List β)
  | [] => .ok []
  | a :: as =>
    match f a with
    | .error e => .error e
    | .ok b =>
      match mapME f as with
      | .error e => .error e
      | .ok bs => .ok (b :: bs)

/-- String-list resolution for pros/cons (lines 415-416):
`Array.isArray(a.f) ? a.f.map(String) : Array.isArray(a.g) ? a.g.map(String) : []`. -/
def resolveStrList (a : JSValue) (f g : String) : List String :=
  match jsGetD a f with
  | .vArr xs => xs.map jsToString
  | _ =>
    match jsGetD a g with
    | .vArr xs => xs.map jsToString
    | _ => []

/-- Normalization of one option record (lines 399-424).  Reading a property
of a `null`/`undefined` record raises a TypeError. -/
def normalizeOption (a : JSValue) : Except Unit ParsedOptionAnalysis :=
  if a.isNullish then .error ()
  else
    let optId := jsCoalesce (jsGetD a "optionId") (jsCoalesce (jsGetD a "option_id")
      (jsCoalesce (jsGetD a "opt_id") (jsCoalesce (jsGetD a "id") (.vStr "unknown"))))
    match mapME normalizeCA (locatedCriteria a) with
    | .error e => .error e
    | .ok normalizedCA =>
      .ok
        { optionId := jsToString optId
          criteriaAnalysis := normalizedCA
          pros := resolveStrList a "pros" "positives"
          cons := resolveStrList a "cons" "negatives" }

/-- The second normalization pass (lines 430-437) applied to one
already-normalized criteria record: `criteriaId ?? ""`, `clampScore(score)`,
`reasoning ?? ""`, `confidence` re-clamped when present. -/
def renormalizeCA (ca : ParsedCriteriaAnalysis) : ParsedCriteriaAnalysis :=
  { criteriaId := jsCoalesce ca.criteriaId (.vStr "")
    score := clampScore (.vNum (JQ.ofInt ca.score))
    reasoning := ca.reasoning
    confidence := ca.confidence.map (fun c => clampScore (.vNum (JQ.ofInt c))) }

/-- The second normalization pass over one option record. -/
def renormalizeOption (opt : ParsedOptionAnalysis) : ParsedOptionAnalysis :=
  { opt with criteriaAnalysis := opt.criteriaAnalysis.map renormalizeCA }

/-- The result normalizer (lines 385-437): locates the analysis collection,
resolves the scalar fields by `??`-fallback, normalizes every option record
and applies the second pass.  Accessing `parsedRaw.analysis` on a
`null`/`undefined` root raises a TypeError (`Except.error`). -/
def normalize (parsedRaw : JSValue) : Except Unit SherlockResult :=
  match jsGetField parsedRaw "analysis" with
  | .error e => .error e
  | .ok _ =>
    -- parsedRaw is non-nullish here and the accessed field is
    -- `jsGetD parsedRaw "analysis"`; the remaining reads cannot raise
    match mapME normalizeOption (locatedAnalysis parsedRaw) with
    | .error e => .error e
    | .ok analysis =>
      .ok
        { analysis := analysis.map renormalizeOption
          verdict := jsCoalesce (jsGetD parsedRaw "verdict") (jsCoalesce (jsGetD parsedRaw "summary")
            (jsCoalesce (jsGetD parsedRaw "verdict_text") (.vStr "")))
          winnerId := jsCoalesce (jsGetD parsedRaw "winnerId") (jsCoalesce (jsGetD parsedRaw "winner_id")
            (jsCoalesce (jsGetD parsedRaw "winner") (.vStr "")))
          recommendation := jsCoalesce (jsGetD parsedRaw "recommendation")
            (jsCoalesce (jsGetD parsedRaw "advice") (.vStr ""))
          summary := jsCoalesce (jsGetD parsedRaw "summary") .vUndefined
          topRisks := jsCoalesce (jsGetD parsedRaw "topRisks")
            (jsCoalesce (jsGetD parsedRaw "risks") .vUndefined)
          nextSteps := jsCoalesce (jsGetD parsedRaw "nextSteps")
            (jsCoalesce (jsGetD parsedRaw "actions") .vUndefined) }

/- ----------------------------------------------------------------
   Winner inference (src/decisionSherlock.ts.tsx lines 442-451)
   ---------------------------------------------------------------- -/

/-- Arithmetic mean of an option's criterion scores, `0` when it has none
(`opt.criteriaAnalysis.length ? reduce(+)/length : 0`). -/
def avgScore (opt : ParsedOptionAnalysis) : JQ :=
  if opt.criteriaAnalysis.length = 0 then JQ.ofInt 0
  else
    JQ.divNat
      ((opt.criteriaAnalysis.map (fun c => JQ.ofInt c.score)).foldr JQ.add (JQ.ofInt 0))
      opt.criteriaAnalysis.length

/-- Stable descending insertion by average: an element is placed before the
first element whose average is not larger, so earlier elements win ties. -/
def insertDesc (p : String × JQ) : List (String × JQ) → List (String × JQ)
  | [] => [p]
  | q :: rest => if q.2.ble p.2 then p :: q :: rest else q :: insertDesc p rest

/-- Stable descending sort by average, modelling the ES2019+ stable
`Array.prototype.sort((a, b) => b.avg - a.avg)`. -/
def sortByAvgDesc : List (String × JQ) → List (String × JQ)
  | [] => []
  | p :: rest => insertDesc p (sortByAvgDesc rest)

/-- Winner inference (lines 442-451): when the winner id is falsy and more
than one option analysis exists, the option with the highest average score
(stable sort, then first element) becomes the winner. -/
def inferWinner (final : SherlockResult) : SherlockResult :=
  if !jsTruthy final.winnerId && decide (1 < final.analysis.length) then
    let pairs := final.analysis.map (fun opt => (opt.optionId, avgScore opt))
    match (sortByAvgDesc pairs).head? with
    | some candidate => { final with winnerId := .vStr candidate.1 }
    | none => final
  else final

/-- The post-extraction pipeline of `analyzeDecision`
(src/decisionSherlock.ts.tsx lines 342-454): marker-delimited extraction,
lenient parse, normalization, winner inference. -/
def processRawText (rawText : List Char) : Except PErr SherlockResult :=
  match extractCandidate rawText with
  | .error e => .error e
  | .ok candidate =>
    match safeParseJSON candidate with
    | .error _ => .error .invalidJson
    | .ok parsedRaw =>
      match normalize parsedRaw with
      | .error _ => .error .typeError
      | .ok final => .ok (inferWinner final)

/- ----------------------------------------------------------------
   Raw model responses and text extraction
   ---------------------------------------------------------------- -/

/-- An untrusted raw model response.  `plain v` is an ordinary JS value;
`withTextFn fnResult fields` is an object whose `text` property is a
zero-argument function (its invocation either raises, `Except.error`, or
returns a value) and whose other properties are `fields`. -/
inductive RawResponse where
  | plain : JSValue → RawResponse
  | withTextFn : Except Unit JSValue → List (String × JSValue) → RawResponse

/-- Property access on a raw response ignoring a callable `text`. -/
def RawResponse.getD : RawResponse → String → JSValue
  | .plain v, name => jsGetD v name
  | .withTextFn _ fields, name => (jsLookup fields name).getD .vUndefined

/-- Truthiness of the raw response value itself. -/
def RawResponse.truthy : RawResponse → Bool
  | .plain v => jsTruthy v
  | .withTextFn _ _ => true

/-- Whether the response is `null`/`undefined`. -/
def RawResponse.isNullish : RawResponse → Bool
  | .plain v => v.isNullish
  | .withTextFn _ _ => false

/-- `JSON.stringify(response)`: a function-valued `text` property is
omitted, exactly as `JSON.stringify` omits function properties. -/
def RawResponse.stringify : RawResponse → Option String
  | .plain v => jsonStringify v
  | .withTextFn _ fields => jsonStringify (.vObj fields)

/-- `String(response ?? "")`. -/
def RawResponse.strCoerce : RawResponse → String
  | .plain v => if v.isNullish then "" else jsToString v
  | .withTextFn _ fields => jsToString (.vObj fields)

/-- The inline text extraction of `analyzeDecision`
(src/decisionSherlock.ts.tsx lines 321-338): `response.value` first, then a
callable `text` (whose failure is caught and rethrown as
`"Failed to extract model text."`), a string `text`, an `outputs` array
joined by newlines, else the serialized response.  A `null`/`undefined`
response makes the `response.value` access itself raise inside the same
`try`, and a non-string value returned by `text()` makes the subsequent
`rawText.slice` call raise (modelled as `typeError`). -/
def extractTextDS (response : RawResponse) : Except PErr String :=
  if response.isNullish then .error .extractFailed
  else if jsTruthy (response.getD "value") then
    .ok ((jsonStringify (response.getD "value")).getD "")
  else
    match response with
    | .withTextFn fnResult _ =>
      match fnResult with
      | .error _ => .error .extractFailed
      | .ok (.vStr s) => .ok s
      | .ok _ => .error .typeError
    | .plain v =>
      match jsGetD v "text" with
      | .vStr s => .ok s
      | _ =>
        match jsGetD v "outputs" with
        | .vArr outs =>
          .ok (String.intercalate "\n" (outs.map (fun o =>
            let t := if o.isNullish then .vUndefined else jsGetD o "text"
            let e := jsCoalesce t ((jsonStringify o).elim .vUndefined .vStr)
            jsArrElem e)))
        | _ => .ok ((jsonStringify v).getD "")

/-- `analyzeDecision`'s model call and post-processing, parameterized by the
environment's `API_KEY`, the global `__API_KEY__` fallback, and the raw
response the model returns.  The returned pair is the analysis outcome and
the value of `process.env.API_KEY` after the call
(src/decisionSherlock.ts.tsx lines 242-455). -/
def analyzeDecisionModel (envKey globalKey : Option String) (response : RawResponse) :
    Except PErr SherlockResult × Option String :=
  let keyTruthy : Option String → Bool := fun o =>
    match o with
    | some s => decide (s ≠ "")
    | none => false
  if keyTruthy envKey then
    (matchResponse response, envKey)
  else if keyTruthy globalKey then
    (matchResponse response, globalKey)
  else
    (.error .missingApiKey, envKey)
where
  matchResponse (response : RawResponse) : Except PErr SherlockResult :=
    match extractTextDS response with
    | .error e => .error e
    | .ok rawText => processRawText rawText.data

/- ----------------------------------------------------------------
   geminiService extractRawText (src/services/geminiService.ts lines 26-86)
   ---------------------------------------------------------------- -/

/-- Strategy 1: a callable `text` accessor.  An invocation failure is
caught and ignored; only a non-empty string result succeeds. -/
def tryTextFn : RawResponse → Option String
  | .withTextFn fnResult _ =>
    match fnResult with
    | .ok (.vStr s) => if s = "" then none else some s
    | _ => none
  | .plain _ => none

/-- Strategy 2: a non-empty string `text` property (a callable `text` is not
a string, so it never matches here). -/
def tryTextStr : RawResponse → Option String
  | .withTextFn _ _ => none
  | .plain v =>
    if jsTruthy v then
      match jsGetD v "text" with
      | .vStr s => if s = "" then none else some s
      | _ => none
    else none

/-- Strategy 3: a non-empty string `outputText` property. -/
def tryOutputText (r : RawResponse) : Option String :=
  if r.truthy then
    match r.getD "outputText" with
    | .vStr s => if s = "" then none else some s
    | _ => none
  else none

/-- The `text` field of an entry when it is a non-empty string. -/
def entryText (c : JSValue) : Option String :=
  match jsGetD c "text" with
  | .vStr s => if s = "" then none else some s
  | _ => none

/-- A JSON-typed content block (`c.mimeType === "application/json" && c.json`)
serialized back to a string. -/
def contentJson (c : JSValue) : Option String :=
  if (match jsGetD c "mimeType" with
      | .vStr s => decide (s = "application/json")
      | _ => false) && jsTruthy (jsGetD c "json") then
    jsonStringify (jsGetD c "json")
  else none

/-- A bare non-empty string content entry. -/
def contentBareStr (c : JSValue) : Option String :=
  match c with
  | .vStr s => if s = "" then none else some s
  | _ => none

/-- Scan of one `content` array (strategy 4, inner loop): falsy entries are
skipped; then, per entry: a non-empty string `text` field, a JSON-typed
block serialized back to a string, or a bare non-empty string entry. -/
def scanContent : List JSValue → Option String
  | [] => none
  | c :: rest =>
    if !jsTruthy c then scanContent rest
    else
      match entryText c with
      | some s => some s
      | none =>
        match contentJson c with
        | some s => some s
        | none =>
          match contentBareStr c with
          | some s => some s
          | none => scanContent rest

/-- Scan of the `outputs` array (strategy 4, outer loop): falsy entries are
skipped; a non-empty string `text` field wins; otherwise a `content` array
is scanned. -/
def scanOutputs : List JSValue → Option String
  | [] => none
  | o :: rest =>
    if !jsTruthy o then scanOutputs rest
    else
      match entryText o with
      | some s => some s
      | none =>
        match jsGetD o "content" with
        | .vArr cs =>
          match scanContent cs with
          | some s => some s
          | none => scanOutputs rest
        | _ => scanOutputs rest

/-- Strategy 4: an array-valued `outputs` property, scanned. -/
def tryOutputs (r : RawResponse) : Option String :=
  if r.truthy then
    match r.getD "outputs" with
    | .vArr outs => scanOutputs outs
    | _ => none
  else none

/-- Strategy 5: `JSON.stringify(response)` when it yields a non-empty
string. -/
def tryStringify (r : RawResponse) : Option String :=
  match r.stringify with
  | some s => if s = "" then none else some s
  | none => none

/-- The strategies 2-5 of `extractRawText` with the final
`String(response ?? "")` fallback. -/
def extractFromStr (r : RawResponse) : String :=
  match tryTextStr r with
  | some s => s
  | none =>
    match tryOutputText r with
    | some s => s
    | none =>
      match tryOutputs r with
      | some s => s
      | none =>
        match tryStringify r with
        | some s => s
        | none => r.strCoerce

/-- `extractRawText` (src/services/geminiService.ts lines 26-86): the five
extraction strategies tried in priority order; every internal failure is
caught, so the function is total. -/
def extractRawText (r : RawResponse) : String :=
  match tryTextFn r with
  | some s => s
  | none => extractFromStr r

/- ----------------------------------------------------------------
   Statement-side definitions used by the verification theorems
   ---------------------------------------------------------------- -/

/-- The first element of maximal average in a list of (id, average) pairs:
the value whose optionId the stable descending sort places first. -/
def firstMax : List (String × JQ) → Option (String × JQ)
  | [] => none
  | p :: rest =>
    match firstMax rest with
    | none => some p
    | some m => if m.2.ble p.2 then some p else some m

/-- The arithmetic mean of an option's criterion scores as a genuine
rational (`0` when it has no scores); the reference value `avgScore`
computes. -/
def meanScoreQ (opt : ParsedOptionAnalysis) : ℚ :=
  if opt.criteriaAnalysis.length = 0 then 0
  else ((opt.criteriaAnalysis.map (fun c => (c.score : ℚ))).sum) / opt.criteriaAnalysis.length

/-- The parsed values on which the normalizer performs no property access on
`null`/`undefined`: a non-nullish root whose located option records and
criteria entries are all non-nullish. -/
def normSafe (v : JSValue) : Bool :=
  !v.isNullish &&
    (locatedAnalysis v).all (fun a =>
      !a.isNullish && (locatedCriteria a).all (fun ca => !ca.isNullish))

/-- An integral `JQ` score within `[0, 100]`. -/
def goodScore (q : JQ) : Bool :=
  q.den = 1 && 0 ≤ q.num && q.num ≤ 100

/-- A criteria-analysis JSON object with the canonical field names of the
advertised schema: string `criteriaId`, integer `score` in range, string
`reasoning`, and an absent or in-range integer `confidence`. -/
def conformantCA (ca : JSValue) : Bool :=
  match ca with
  | .vObj _ =>
    (match jsGetD ca "criteriaId" with | .vStr _ => true | _ => false) &&
    (match jsGetD ca "score" with | .vNum q => goodScore q | _ => false) &&
    (match jsGetD ca "reasoning" with | .vStr _ => true | _ => false) &&
    (match jsGetD ca "confidence" with
     | .vUndefined => true
     | .vNum q => goodScore q
     | _ => false)
  | _ => false

/-- An option-analysis JSON object with the canonical field names: string
`optionId`, array `criteriaAnalysis` of conformant entries, string arrays
`pros` and `cons`. -/
def conformantOpt (a : JSValue) : Bool :=
  match a with
  | .vObj _ =>
    (match jsGetD a "optionId" with | .vStr _ => true | _ => false) &&
    (match jsGetD a "criteriaAnalysis" with
     | .vArr cas => cas.all conformantCA
     | _ => false) &&
    (match jsGetD a "pros" with
     | .vArr xs => xs.all (fun x => match x with | .vStr _ => true | _ => false)
     | _ => false) &&
    (match jsGetD a "cons" with
     | .vArr xs => xs.all (fun x => match x with | .vStr _ => true | _ => false)
     | _ => false)
  | _ => false

/-- A JSON payload that already conforms to the advertised `AnalysisResult`
schema: object root, array `analysis` of conformant option records, string
`verdict`, `winnerId` and `recommendation`. -/
def conformantResult (t : JSValue) : Bool :=
  match t with
  | .vObj _ =>
    (match jsGetD t "analysis" with
     | .vArr xs => xs.all conformantOpt
     | _ => false) &&
    (match jsGetD t "verdict" with | .vStr _ => true | _ => false) &&
    (match jsGetD t "winnerId" with | .vStr _ => true | _ => false) &&
    (match jsGetD t "recommendation" with | .vStr _ => true | _ => false)
  | _ => false

/-- A normalized criteria record carries the same identifier and score as a
conformant criteria JSON object. -/
def caMatches (c : ParsedCriteriaAnalysis) (ca : JSValue) : Bool :=
  (match c.criteriaId, jsGetD ca "criteriaId" with
   | .vStr x, .vStr y => x = y
   | _, _ => false) &&
  (match jsGetD ca "score" with
   | .vNum q => c.score = q.num
   | _ => false)

/-- Pointwise matching of two lists (also forcing equal lengths). -/
def listAll2 (p : α → β → Bool) : List α → List β → Bool
  | [], [] => true
  | a :: as, b :: bs => p a b && listAll2 p as bs
  | _, _ => false

/-- A normalized option record carries the same option identifier and the
same criteria identifiers and scores as a conformant option JSON object. -/
def optMatches (o : ParsedOptionAnalysis) (a : JSValue) : Bool :=
  (match jsGetD a "optionId" with
   | .vStr s => o.optionId = s
   | _ => false) &&
  listAll2 caMatches o.criteriaAnalysis
    (match jsGetD a "criteriaAnalysis" with | .vArr cas => cas | _ => [])

/-- A normalized result is equivalent to a conformant payload: same number
of option analyses, same option and criteria identifiers, same scores. -/
def resultMatches (r : SherlockResult) (t : JSValue) : Bool :=
  listAll2 optMatches r.analysis
    (match jsGetD t "analysis" with | .vArr xs => xs | _ => [])

/- ----------------------------------------------------------------
   Concrete values used by witnesses and counterexamples
   ---------------------------------------------------------------- -/

/-- A sample option-analysis JSON object with one integral score per listed
value. -/
def sampleOpt (id : String) (scores : List ℤ) : JSValue :=
  .vObj [("optionId", .vStr id),
         ("criteriaAnalysis", .vArr (scores.map (fun s =>
           .vObj [("criteriaId", .vStr "c1"), ("score", .vNum (JQ.ofInt s)),
                  ("reasoning", .vStr "r")]))),
         ("pros", .vArr []), ("cons", .vArr [])]

/-- A parsed payload whose `winnerId` references no option analysis. -/
def bogusWinnerInput : JSValue :=
  .vObj [("analysis", .vArr [sampleOpt "o1" [10], sampleOpt "o2" [20]]),
         ("winnerId", .vStr "zzz"),
         ("verdict", .vStr "v"), ("recommendation", .vStr "r")]

/-- A normalized result with a single option analysis and empty winner. -/
def singleOptionResult : SherlockResult :=
  { analysis := [{ optionId := "only", criteriaAnalysis := [], pros := [], cons := [] }]
    verdict := .vStr "v"
    winnerId := .vStr ""
    recommendation := .vStr "r"
    summary := .vUndefined
    topRisks := .vUndefined
    nextSteps := .vUndefined }

/-- The §8 sample payload of the specification: one option, one score of
150, canonical field names. -/
def samplePayload : String :=
  "\x7b\"analysis\":[\x7b\"optionId\":\"o1\",\"criteriaAnalysis\":[\x7b\"criteriaId\":\"c1\"," ++
  "\"score\":150,\"reasoning\":\"x\"\x7d],\"pros\":[],\"cons\":[]\x7d],\"verdict\":\"v\"," ++
  "\"winnerId\":\"o1\",\"recommendation\":\"r\"\x7d"

/-- A conformant payload with two options and in-range scores. -/
def conformantPayload : String :=
  "\x7b\"analysis\":[\x7b\"optionId\":\"o1\",\"criteriaAnalysis\":[\x7b\"criteriaId\":\"c1\"," ++
  "\"score\":88,\"reasoning\":\"a\"\x7d],\"pros\":[],\"cons\":[]\x7d," ++
  "\x7b\"optionId\":\"o2\",\"criteriaAnalysis\":[\x7b\"criteriaId\":\"c1\"," ++
  "\"score\":70,\"reasoning\":\"b\"\x7d],\"pros\":[],\"cons\":[]\x7d],\"verdict\":\"v\"," ++
  "\"winnerId\":\"o1\",\"recommendation\":\"r\"\x7d"

/- ----------------------------------------------------------------
   Bridge lemmas: JQ versus ℚ
   ---------------------------------------------------------------- -/

theorem JQ.toRat_ofInt (n : ℤ) : (JQ.ofInt n).toRat = (n : ℚ) := by
  simp [JQ.toRat, JQ.ofInt]

theorem JQ.isNeg_iff (a : JQ) (h : 0 < a.den) : a.isNeg = true ↔ a.toRat < 0 := by
  have hd : (0 : ℚ) < (a.den : ℚ) := by exact_mod_cast h
  simp only [JQ.isNeg, decide_eq_true_eq, JQ.toRat]
  rw [div_neg_iff]
  constructor
  · intro hn
    exact Or.inr ⟨by exact_mod_cast hn, hd⟩
  · rintro (⟨_, hb⟩ | ⟨hn, _⟩)
    · linarith
    · exact_mod_cast hn

theorem JQ.gt100_iff (a : JQ) (h : 0 < a.den) : a.gt100 = true ↔ 100 < a.toRat := by
  have hd : (0 : ℚ) < (a.den : ℚ) := by exact_mod_cast h
  simp only [JQ.gt100, decide_eq_true_eq, JQ.toRat]
  rw [lt_div_iff₀ hd]
  constructor
  · intro hn; exact_mod_cast hn
  · intro hn; exact_mod_cast hn

theorem JQ.ble_iff (a b : JQ) (ha : 0 < a.den) (hb : 0 < b.den) :
    a.ble b = true ↔ a.toRat ≤ b.toRat := by
  have hda : (0 : ℚ) < (a.den : ℚ) := by exact_mod_cast ha
  have hdb : (0 : ℚ) < (b.den : ℚ) := by exact_mod_cast hb
  simp only [JQ.ble, decide_eq_true_eq, JQ.toRat]
  rw [div_le_div_iff₀ hda hdb]
  constructor
  · intro hn; exact_mod_cast hn
  · intro hn; exact_mod_cast hn

theorem JQ.jround_eq_round (a : JQ) (h : 0 < a.den) : jround a = round a.toRat := by
  have hd : ((a.den : ℚ)) ≠ 0 := by
    have h0 : (0 : ℚ) < (a.den : ℚ) := by exact_mod_cast h
    linarith
  have key : a.toRat + 1 / 2 = (((2 * a.num + (a.den : ℤ)) : ℤ) : ℚ) / (((2 * a.den : ℕ)) : ℚ) := by
    push_cast
    field_simp [JQ.toRat]
    ring
  rw [round_eq, key, Rat.floor_intCast_div_natCast]
  rw [jround, Int.fdiv_eq_ediv _ (by positivity)]
  norm_cast

/- ----------------------------------------------------------------
   Range of clampScore
   ---------------------------------------------------------------- -/

theorem jround_range (q : JQ) (h0 : 0 ≤ q.num) (h1 : q.num ≤ 100 * (q.den : ℤ)) :
    0 ≤ jround q ∧ jround q ≤ 100 := by
  rcases Nat.eq_zero_or_pos q.den with hd | hd
  · have hnum : q.num = 0 := le_antisymm (by simpa [hd] using h1) h0
    simp [jround, hd, hnum]
  · have hdz : (0 : ℤ) < 2 * (q.den : ℤ) := by
      have : (0 : ℤ) < (q.den : ℤ) := by exact_mod_cast hd
      linarith
    rw [jround, Int.fdiv_eq_ediv _ (le_of_lt hdz)]
    constructor
    · exact Int.ediv_nonneg (by omega) (le_of_lt hdz)
    · have hlt : (2 * q.num + (q.den : ℤ)) / (2 * (q.den : ℤ)) < 101 := by
        rw [Int.ediv_lt_iff_lt_mul hdz]
        have : (0 : ℤ) < (q.den : ℤ) := by exact_mod_cast hd
        linarith
      omega

theorem clampScore_range (n : JSValue) : 0 ≤ clampScore n ∧ clampScore n ≤ 100 := by
  unfold clampScore
  cases h : jsToNumber (jsOr n (.vNum (JQ.ofInt 0))) with
  | nan => exact ⟨le_refl 0, by norm_num⟩
  | posInf => exact ⟨by norm_num, le_refl 100⟩
  | negInf => exact ⟨le_refl 0, by norm_num⟩
  | fin q =>
    by_cases h1 : q.isNeg
    · simp [h1]
    · by_cases h2 : q.gt100
      · simp [h1, h2]
      · simp only [h1, h2, Bool.false_eq_true, if_false]
        have hn : 0 ≤ q.num := by
          simpa [JQ.isNeg, not_lt] using h1
        have hm : q.num ≤ 100 * (q.den : ℤ) := by
          simpa [JQ.gt100, not_lt] using h2
        exact jround_range q hn hm

/-- Every score in a normalized result is produced by `clampScore` (through
the second normalization pass). -/
theorem normalize_score_clamped (v : JSValue) (r : SherlockResult)
    (h : normalize v = .ok r) :
    ∀ opt ∈ r.analysis, ∀ ca ∈ opt.criteriaAnalysis,
      ∃ x, ca.score = clampScore x := by
  intro opt hopt ca hca
  unfold normalize at h
  cases hf : jsGetField v "analysis" with
  | error e => rw [hf] at h; exact absurd h (by simp)
  | ok analysisField =>
    rw [hf] at h
    dsimp only at h
    cases hm : mapME normalizeOption (locatedAnalysis v) with
    | error e => rw [hm] at h; exact absurd h (by simp)
    | ok as =>
      rw [hm] at h
      have hr : r.analysis = as.map renormalizeOption := by
        cases h; rfl
      rw [hr] at hopt
      rcases List.mem_map.mp hopt with ⟨o, _, rfl⟩
      rcases List.mem_map.mp hca with ⟨c, _, rfl⟩
      exact ⟨.vNum (JQ.ofInt c.score), rfl⟩

/-- C1: for every input to the score clamp rule, a negative numeric value
maps to 0, a value above 100 maps to 100, a non-numeric (NaN-coercing)
value maps to 0, the missing value (`undefined`) maps to 0, and an
in-range value rounds to the nearest integer (`Math.round`, e.g. 87.6 to
88); consequently every `AnalysisResult` produced by the normalizer has a
`List` of option analyses (always an array by construction) in which every
score is an integer within `[0, 100]`. -/
theorem c1_clampScore_spec :
    (∀ n : JSValue, ∀ q : JQ, jsToNumber (jsOr n (.vNum (JQ.ofInt 0))) = .fin q → 0 < q.den →
        ((q.toRat < 0 → clampScore n = 0) ∧
         (100 < q.toRat → clampScore n = 100) ∧
         (0 ≤ q.toRat → q.toRat ≤ 100 → clampScore n = round q.toRat))) ∧
    (∀ n : JSValue, jsToNumber (jsOr n (.vNum (JQ.ofInt 0))) = .nan → clampScore n = 0) ∧
    (clampScore .vUndefined = 0) ∧
    (∀ n : JSValue, 0 ≤ clampScore n ∧ clampScore n ≤ 100) ∧
    (∀ v r, normalize v = .ok r → ∀ opt ∈ r.analysis, ∀ ca ∈ opt.criteriaAnalysis,
        0 ≤ ca.score ∧ ca.score ≤ 100) := by
  refine ⟨?_, ?_, ?_, ?_, ?_⟩
  · intro n q hq hden
    refine ⟨?_, ?_, ?_⟩
    · intro hneg
      have : q.isNeg = true := (JQ.isNeg_iff q hden).mpr hneg
      simp [clampScore, hq, this]
    · intro hgt
      have hng : q.isNeg = false := by
        rcases Bool.eq_false_or_eq_true q.isNeg with ht | hf
        · have := (JQ.isNeg_iff q hden).mp ht
          linarith
        · exact hf
      have : q.gt100 = true := (JQ.gt100_iff q hden).mpr hgt
      simp [clampScore, hq, hng, this]
    · intro h0 h1
      have hng : q.isNeg = false := by
        rcases Bool.eq_false_or_eq_true q.isNeg with ht | hf
        · have := (JQ.isNeg_iff q hden).mp ht
          linarith
        · exact hf
      have hngt : q.gt100 = false := by
        rcases Bool.eq_false_or_eq_true q.gt100 with ht | hf
        · have := (JQ.gt100_iff q hden).mp ht
          linarith
        · exact hf
      simp [clampScore, hq, hng, hngt, JQ.jround_eq_round q hden]
  · intro n hq
    simp [clampScore, hq]
  · rfl
  · exact clampScore_range
  · intro v r h opt hopt ca hca
    rcases normalize_score_clamped v r h opt hopt ca hca with ⟨x, hx⟩
    rw [hx]
    exact clampScore_range x

/-- Witness for C1 at concrete inputs: -5 clamps to 0, 150 to 100, the
string "abc" (NaN) to 0, undefined to 0, 87.6 rounds to 88, and the
normalized §8 sample payload (score 150) carries only scores in range. -/
theorem c1_clampScore_spec_witness :
    clampScore (.vNum (JQ.ofInt (-5))) = 0 ∧
    clampScore (.vNum (JQ.ofInt 150)) = 100 ∧
    clampScore (.vStr "abc") = 0 ∧
    clampScore .vUndefined = 0 ∧
    clampScore (.vNum ⟨876, 10⟩) = round ((876 : ℚ) / 10) ∧
    (match normalize bogusWinnerInput with
     | .ok r => r.analysis.all (fun opt => opt.criteriaAnalysis.all (fun ca =>
         decide (0 ≤ ca.score) && decide (ca.score ≤ 100)))
     | .error _ => false) = true := by
  refine ⟨?_, ?_, ?_, ?_, ?_, ?_⟩
  · exact (c1_clampScore_spec.1 (.vNum (JQ.ofInt (-5))) (JQ.ofInt (-5)) (by decide)
      (by decide)).1 (by norm_num [JQ.toRat_ofInt])
  · exact (c1_clampScore_spec.1 (.vNum (JQ.ofInt 150)) (JQ.ofInt 150) (by decide)
      (by decide)).2.1 (by norm_num [JQ.toRat_ofInt])
  · exact c1_clampScore_spec.2.1 (.vStr "abc") (by decide)
  · exact c1_clampScore_spec.2.2.1
  · have h := (c1_clampScore_spec.1 (.vNum ⟨876, 10⟩) ⟨876, 10⟩ (by decide) (by decide)).2.2
    have hRat : (JQ.toRat ⟨876, 10⟩) = (876 : ℚ) / 10 := by
      norm_num [JQ.toRat]
    rw [hRat] at h
    exact h (by norm_num) (by norm_num)
  · cases hn : normalize bogusWinnerInput with
    | error e =>
      exfalso
      have hok : (match normalize bogusWinnerInput with
                  | .ok _ => true | .error _ => false) = true := by decide
      rw [hn] at hok
      cases hok
    | ok r =>
      dsimp only
      rw [List.all_eq_true]
      intro opt hopt
      rw [List.all_eq_true]
      intro ca hca
      have h2 := c1_clampScore_spec.2.2.2.2 bogusWinnerInput r hn opt hopt ca hca
      simp [Bool.and_eq_true, decide_eq_true_eq]
      exact h2

/- ----------------------------------------------------------------
   Winner inference: frame and highest-mean selection
   ---------------------------------------------------------------- -/

/-- Winner inference never changes any field except `winnerId`. -/
theorem inferWinner_frame_fields (f : SherlockResult) :
    (inferWinner f).analysis = f.analysis ∧ (inferWinner f).verdict = f.verdict ∧
    (inferWinner f).recommendation = f.recommendation ∧
    (inferWinner f).summary = f.summary ∧ (inferWinner f).topRisks = f.topRisks ∧
    (inferWinner f).nextSteps = f.nextSteps := by
  unfold inferWinner
  split
  · cases hh : (sortByAvgDesc (f.analysis.map (fun opt => (opt.optionId, avgScore opt)))).head? with
    | some c => simp [hh]
    | none => simp [hh]
  · exact ⟨rfl, rfl, rfl, rfl, rfl, rfl⟩

/-- C9: winner inference modifies only the `winnerId` field of the
normalized result: the analysis sequence, verdict, recommendation, summary,
topRisks and nextSteps are identical before and after the step, and a
non-empty string `winnerId` is never overwritten. -/
theorem c9_inferWinner_only_winnerId (f : SherlockResult) :
    (inferWinner f).analysis = f.analysis ∧ (inferWinner f).verdict = f.verdict ∧
    (inferWinner f).recommendation = f.recommendation ∧
    (inferWinner f).summary = f.summary ∧ (inferWinner f).topRisks = f.topRisks ∧
    (inferWinner f).nextSteps = f.nextSteps ∧
    (∀ s : String, f.winnerId = .vStr s → s ≠ "" → (inferWinner f).winnerId = f.winnerId) := by
  obtain ⟨h1, h2, h3, h4, h5, h6⟩ := inferWinner_frame_fields f
  refine ⟨h1, h2, h3, h4, h5, h6, ?_⟩
  intro s hs hne
  have ht : jsTruthy f.winnerId = true := by
    rw [hs]; simpa [jsTruthy] using hne
  simp [inferWinner, ht]

/-- Witness for C9: a result with the non-empty winner "keep" passes winner
inference with winnerId and analysis unchanged. -/
theorem c9_inferWinner_only_winnerId_witness :
    (inferWinner { singleOptionResult with winnerId := .vStr "keep" }).winnerId =
      ({ singleOptionResult with winnerId := .vStr "keep" } : SherlockResult).winnerId ∧
    (inferWinner { singleOptionResult with winnerId := .vStr "keep" }).analysis =
      ({ singleOptionResult with winnerId := .vStr "keep" } : SherlockResult).analysis := by
  refine ⟨?_, (c9_inferWinner_only_winnerId _).1⟩
  exact (c9_inferWinner_only_winnerId _).2.2.2.2.2.2 "keep" rfl (by decide)

/-- Head of a stable descending insertion. -/
theorem insertDesc_head (p : String × JQ) (l : List (String × JQ)) :
    (insertDesc p l).head? = some (match l.head? with
      | none => p
      | some q => if q.2.ble p.2 then p else q) := by
  cases l with
  | nil => rfl
  | cons q rest => by_cases h : q.2.ble p.2 <;> simp [insertDesc, h]

/-- The head of the stable descending sort is the first maximum. -/
theorem sortByAvgDesc_head (l : List (String × JQ)) :
    (sortByAvgDesc l).head? = firstMax l := by
  induction l with
  | nil => rfl
  | cons p rest ih =>
    show (insertDesc p (sortByAvgDesc rest)).head? = _
    rw [insertDesc_head, ih]
    cases h : firstMax rest with
    | none => simp [firstMax, h]
    | some m => by_cases hb : m.2.ble p.2 <;> simp [firstMax, h, hb]

/-- `firstMax` is `none` only on the empty list. -/
theorem firstMax_none (l : List (String × JQ)) (h : firstMax l = none) : l = [] := by
  cases l with
  | nil => rfl
  | cons q rest =>
    exfalso
    simp only [firstMax] at h
    cases hm : firstMax rest with
    | none => rw [hm] at h; exact absurd h (by simp)
    | some m =>
      rw [hm] at h
      dsimp only at h
      by_cases hb : m.2.ble q.2 <;> simp [hb] at h

/-- The first maximum is an element of the list. -/
theorem firstMax_mem (l : List (String × JQ)) (p : String × JQ) (h : firstMax l = some p) :
    p ∈ l := by
  induction l generalizing p with
  | nil => exact absurd h (by simp [firstMax])
  | cons q rest ih =>
    simp only [firstMax] at h
    cases hm : firstMax rest with
    | none =>
      rw [hm] at h
      dsimp only at h
      cases h
      exact List.mem_cons_self q rest
    | some m =>
      rw [hm] at h
      dsimp only at h
      by_cases hb : m.2.ble q.2
      · rw [if_pos hb] at h
        cases h
        exact List.mem_cons_self q rest
      · rw [if_neg hb] at h
        cases h
        exact List.mem_cons_of_mem q (ih _ hm)

/-- Characterization of `firstMax` for well-formed averages: the value the
stable descending sort places first is the first element attaining the
maximal value. -/
theorem firstMax_spec :
    ∀ (l : List (String × JQ)), (∀ x ∈ l, 0 < x.2.den) →
    ∀ (p : String × JQ), firstMax l = some p →
    ∃ i, ∃ hi : i < l.length, l.get ⟨i, hi⟩ = p ∧
      (∀ j, (hj : j < l.length) → (l.get ⟨j, hj⟩).2.toRat ≤ p.2.toRat) ∧
      (∀ j, (hj : j < l.length) → j < i → (l.get ⟨j, hj⟩).2.toRat < p.2.toRat)
  | [], _, p, h => absurd h (by simp [firstMax])
  | q :: rest, hden, p, h => by
    have hq : 0 < q.2.den := hden q (List.mem_cons_self q rest)
    have hrest : ∀ x ∈ rest, 0 < x.2.den := fun x hx => hden x (List.mem_cons_of_mem q hx)
    simp only [firstMax] at h
    cases hm : firstMax rest with
    | none =>
      rw [hm] at h
      dsimp only at h
      cases h
      have hnil : rest = [] := firstMax_none rest hm
      subst hnil
      refine ⟨0, by simp, rfl, ?_, ?_⟩
      · intro j hj
        have hj0 : j = 0 := by simpa using Nat.lt_one_iff.mp (by simpa using hj)
        subst hj0
        exact le_refl _
      · intro j hj hlt
        omega
    | some m =>
      rw [hm] at h
      dsimp only at h
      have hmd : 0 < m.2.den := hrest m (firstMax_mem rest m hm)
      by_cases hb : m.2.ble q.2
      · rw [if_pos hb] at h
        cases h
        obtain ⟨i', hi', hget, hbound, _⟩ := firstMax_spec rest hrest m hm
        have hmq : m.2.toRat ≤ q.2.toRat := (JQ.ble_iff _ _ hmd hq).mp hb
        refine ⟨0, by simp, rfl, ?_, ?_⟩
        · intro j hj
          cases j with
          | zero => exact le_refl _
          | succ j' =>
            have hj' : j' < rest.length := by simpa using Nat.lt_of_succ_lt_succ hj
            have hstep : ((q :: rest).get ⟨j' + 1, hj⟩) = rest.get ⟨j', hj'⟩ := rfl
            rw [hstep]
            exact le_trans (hbound j' hj') hmq
        · intro j hj hlt
          omega
      · rw [if_neg hb] at h
        cases h
        obtain ⟨i', hi', hget, hbound, hstrict⟩ := firstMax_spec rest hrest p hm
        have hpd : 0 < p.2.den := hrest p (firstMax_mem rest p hm)
        have hqp : q.2.toRat < p.2.toRat := by
          have hnle : ¬ (p.2.toRat ≤ q.2.toRat) := fun hle =>
            hb ((JQ.ble_iff _ _ hpd hq).mpr hle)
          linarith
        refine ⟨i' + 1, by simpa using Nat.succ_lt_succ hi', ?_, ?_, ?_⟩
        · exact hget
        · intro j hj
          cases j with
          | zero => exact le_of_lt hqp
          | succ j' =>
            have hj' : j' < rest.length := by simpa using Nat.lt_of_succ_lt_succ hj
            have hstep : ((q :: rest).get ⟨j' + 1, hj⟩) = rest.get ⟨j', hj'⟩ := rfl
            rw [hstep]
            exact hbound j' hj'
        · intro j hj hlt
          cases j with
          | zero => exact hqp
          | succ j' =>
            have hj' : j' < rest.length := by simpa using Nat.lt_of_succ_lt_succ hj
            have hstep : ((q :: rest).get ⟨j' + 1, hj⟩) = rest.get ⟨j', hj'⟩ := rfl
            rw [hstep]
            exact hstrict j' hj' (Nat.lt_of_succ_lt_succ hlt)

/-- Folded `JQ` sum of embedded integers. -/
theorem foldr_add_ofInt (l : List ℤ) :
    (l.map JQ.ofInt).foldr JQ.add (JQ.ofInt 0) = ⟨l.sum, 1⟩ := by
  induction l with
  | nil => rfl
  | cons a as ih =>
    show JQ.add (JQ.ofInt a) ((as.map JQ.ofInt).foldr JQ.add (JQ.ofInt 0)) = _
    rw [ih]
    simp [JQ.add, JQ.ofInt]

/-- Closed form of the average the code computes for a non-empty criteria
list. -/
theorem avgScore_eq (opt : ParsedOptionAnalysis) (h : opt.criteriaAnalysis.length ≠ 0) :
    avgScore opt =
      ⟨(opt.criteriaAnalysis.map (fun c => c.score)).sum, opt.criteriaAnalysis.length⟩ := by
  unfold avgScore
  rw [if_neg h]
  rw [show (opt.criteriaAnalysis.map (fun c => JQ.ofInt c.score)) =
      ((opt.criteriaAnalysis.map (fun c => c.score)).map JQ.ofInt) by rw [List.map_map]; rfl]
  rw [foldr_add_ofInt]
  simp [JQ.divNat]

/-- The denominator of a computed average is positive. -/
theorem avgScore_den_pos (opt : ParsedOptionAnalysis) : 0 < (avgScore opt).den := by
  by_cases h : opt.criteriaAnalysis.length = 0
  · simp [avgScore, h, JQ.ofInt]
  · rw [avgScore_eq opt h]
    exact Nat.pos_of_ne_zero h

/-- The average the code computes is the arithmetic mean. -/
theorem avgScore_toRat (opt : ParsedOptionAnalysis) :
    (avgScore opt).toRat = meanScoreQ opt := by
  by_cases h : opt.criteriaAnalysis.length = 0
  · simp [avgScore, h, meanScoreQ, JQ.toRat, JQ.ofInt]
  · rw [avgScore_eq opt h]
    simp only [meanScoreQ, h, if_false, JQ.toRat]
    congr 1
    rw [show (opt.criteriaAnalysis.map (fun c => ((c.score : ℤ) : ℚ))) =
        ((opt.criteriaAnalysis.map (fun c => c.score)).map (fun z : ℤ => (z : ℚ))) by
      rw [List.map_map]; rfl]
    push_cast
    rfl

/-- C3: for every normalized result whose winner identifier is the empty
string: with zero or one option analyses, winner inference leaves the
result exactly as normalization produced it; with more than one, it assigns
as winner the optionId of the first option attaining the highest arithmetic
mean of its criterion scores (an option with no scores has mean 0), ties
broken by first occurrence in the normalized sequence. -/
theorem c3_winner_inference (f : SherlockResult) (hw : f.winnerId = .vStr "") :
    (f.analysis.length ≤ 1 → inferWinner f = f) ∧
    (1 < f.analysis.length →
      ∃ i, ∃ hi : i < f.analysis.length,
        (inferWinner f).winnerId = .vStr (f.analysis.get ⟨i, hi⟩).optionId ∧
        (∀ j, (hj : j < f.analysis.length) →
           meanScoreQ (f.analysis.get ⟨j, hj⟩) ≤ meanScoreQ (f.analysis.get ⟨i, hi⟩)) ∧
        (∀ j, (hj : j < f.analysis.length) → j < i →
           meanScoreQ (f.analysis.get ⟨j, hj⟩) < meanScoreQ (f.analysis.get ⟨i, hi⟩))) := by
  have htr : jsTruthy f.winnerId = false := by rw [hw]; simp [jsTruthy]
  constructor
  · intro hlen
    have hd : decide (1 < f.analysis.length) = false := by
      simpa using Nat.not_lt.mpr hlen
    simp [inferWinner, htr, hd]
  · intro hlen
    have hcond : (!jsTruthy f.winnerId && decide (1 < f.analysis.length)) = true := by
      simp [htr, hlen]
    have hplen : (f.analysis.map (fun opt => (opt.optionId, avgScore opt))).length =
        f.analysis.length := by simp
    have hne : f.analysis.map (fun opt => (opt.optionId, avgScore opt)) ≠ [] := by
      intro hnil
      rw [hnil] at hplen
      simp at hplen
      omega
    obtain ⟨p, hp⟩ :
        ∃ p, firstMax (f.analysis.map (fun opt => (opt.optionId, avgScore opt))) = some p := by
      cases hfm : firstMax (f.analysis.map (fun opt => (opt.optionId, avgScore opt))) with
      | none => exact absurd (firstMax_none _ hfm) hne
      | some p => exact ⟨p, rfl⟩
    have hden : ∀ x ∈ f.analysis.map (fun opt => (opt.optionId, avgScore opt)), 0 < x.2.den := by
      intro x hx
      rcases List.mem_map.mp hx with ⟨o, _, rfl⟩
      exact avgScore_den_pos o
    obtain ⟨i, hi, hget, hbound, hstrict⟩ := firstMax_spec _ hden p hp
    have hi' : i < f.analysis.length := by rw [← hplen]; exact hi
    have hpg : (f.analysis.map (fun opt => (opt.optionId, avgScore opt))).get ⟨i, hi⟩ =
        ((f.analysis.get ⟨i, hi'⟩).optionId, avgScore (f.analysis.get ⟨i, hi'⟩)) := by
      simp
    have hp1 : p.1 = (f.analysis.get ⟨i, hi'⟩).optionId := by
      rw [← hget, hpg]
    have hp2 : p.2 = avgScore (f.analysis.get ⟨i, hi'⟩) := by
      rw [← hget, hpg]
    refine ⟨i, hi', ?_, ?_, ?_⟩
    · have hwid : (inferWinner f).winnerId = .vStr p.1 := by
        unfold inferWinner
        rw [hcond]
        dsimp only
        rw [sortByAvgDesc_head, hp]
        rfl
      rw [hwid, hp1]
    · intro j hj
      have hj2 : j < (f.analysis.map (fun opt => (opt.optionId, avgScore opt))).length := by
        rw [hplen]; exact hj
      have := hbound j hj2
      have hjg : (f.analysis.map (fun opt => (opt.optionId, avgScore opt))).get ⟨j, hj2⟩ =
          ((f.analysis.get ⟨j, hj⟩).optionId, avgScore (f.analysis.get ⟨j, hj⟩)) := by
        simp
      rw [hjg] at this
      rw [hp2] at this
      simpa [avgScore_toRat] using this
    · intro j hj hlt
      have hj2 : j < (f.analysis.map (fun opt => (opt.optionId, avgScore opt))).length := by
        rw [hplen]; exact hj
      have := hstrict j hj2 hlt
      have hjg : (f.analysis.map (fun opt => (opt.optionId, avgScore opt))).get ⟨j, hj2⟩ =
          ((f.analysis.get ⟨j, hj⟩).optionId, avgScore (f.analysis.get ⟨j, hj⟩)) := by
        simp
      rw [hjg] at this
      rw [hp2] at this
      simpa [avgScore_toRat] using this

/-- Witness for C3: a normalized result with an empty winner and a single
option analysis passes winner inference untouched. -/
theorem c3_winner_inference_witness :
    inferWinner singleOptionResult = singleOptionResult :=
  (c3_winner_inference singleOptionResult rfl).1 (by decide)

/- ----------------------------------------------------------------
   C2: the winner identifier is not validated against the analysis
   ---------------------------------------------------------------- -/

/-- C2 (code bug): the pipeline completes on the failing input below with
winner identifier "zzz", which neither equals the optionId of any element
of the analysis array (these are "o1" and "o2") nor is the empty string.
The final-validation comment in the source ("ensure winnerId exists in
analysis") and the specification require membership or emptiness, but the
code only tests `!final.winnerId`. -/
theorem c2_winnerId_not_validated :
    (match normalize bogusWinnerInput with
     | .ok f =>
       (match (inferWinner f).winnerId with | .vStr s => s | _ => "?") ::
         (inferWinner f).analysis.map (fun o => o.optionId)
     | .error _ => []) = ["zzz", "o1", "o2"] ∧
    ("zzz" ∉ ["o1", "o2"] ∧ "zzz" ≠ "") := by
  exact ⟨by decide, by decide, by decide⟩

/- ----------------------------------------------------------------
   C4: marker-delimited extraction
   ---------------------------------------------------------------- -/

/-- C4: when the sentinel marker occurs in the extracted text, the JSON
candidate is everything after its first occurrence, trimmed, with leading
(optionally `json`-tagged) and trailing backtick fences stripped; when the
marker is absent, the candidate is the greedy first-left-brace-to-last-
right-brace block; when neither path yields a non-empty candidate, the
extraction step fails with the NoJsonFound error, the only error it ever
produces, and the pipeline propagates it rather than returning a value. -/
theorem c4_marker_extraction (rawText : List Char) :
    (∀ after, splitAfterMarker markerChars rawText = some after →
       (cleanCandidate after ≠ [] → extractCandidate rawText = .ok (cleanCandidate after)) ∧
       (cleanCandidate after = [] → extractCandidate rawText = .error .noJsonFound)) ∧
    (splitAfterMarker markerChars rawText = none →
       (∀ b, braceBlock rawText = some b → b ≠ [] → extractCandidate rawText = .ok b) ∧
       (braceBlock rawText = none → extractCandidate rawText = .error .noJsonFound)) ∧
    (∀ e, extractCandidate rawText = .error e → e = .noJsonFound) ∧
    (extractCandidate rawText = .error .noJsonFound →
       processRawText rawText = .error .noJsonFound) := by
  refine ⟨?_, ?_, ?_, ?_⟩
  · intro after hsplit
    constructor
    · intro hne
      unfold extractCandidate
      rw [hsplit]
      dsimp only
      rw [if_neg (by simpa [List.isEmpty_iff] using hne)]
    · intro he
      unfold extractCandidate
      rw [hsplit]
      dsimp only
      rw [if_pos (by simpa [List.isEmpty_iff] using he)]
  · intro hsplit
    constructor
    · intro b hb hne
      unfold extractCandidate
      rw [hsplit]
      dsimp only
      rw [hb]
      dsimp only
      rw [if_neg (by simpa [List.isEmpty_iff] using hne)]
    · intro hb
      unfold extractCandidate
      rw [hsplit, hb]
  · intro e he
    unfold extractCandidate at he
    cases hsplit : splitAfterMarker markerChars rawText with
    | some after =>
      rw [hsplit] at he
      dsimp only at he
      by_cases hc : (cleanCandidate after).isEmpty
      · rw [if_pos hc] at he
        cases he
        rfl
      · rw [if_neg hc] at he
        cases he
    | none =>
      rw [hsplit] at he
      cases hb : braceBlock rawText with
      | some b =>
        rw [hb] at he
        dsimp only at he
        by_cases hc : b.isEmpty
        · rw [if_pos hc] at he
          cases he
          rfl
        · rw [if_neg hc] at he
          cases he
      | none =>
        rw [hb] at he
        cases he
        rfl
  · intro he
    unfold processRawText
    rw [he]

/-- Witness for C4: a marker-plus-fenced payload extracts to the unfenced
JSON, a marker-free text extracts its brace block, and a braceless,
marker-free text makes both the step and the pipeline fail with
NoJsonFound. -/
theorem c4_marker_extraction_witness :
    extractCandidate (("###RESULT_JSON### ```json \x7b\"a\":1\x7d ```").data) =
      .ok (("\x7b\"a\":1\x7d").data) ∧
    extractCandidate (("no marker \x7b\"b\":2\x7d tail").data) = .ok (("\x7b\"b\":2\x7d").data) ∧
    extractCandidate (("nothing here").data) = .error .noJsonFound ∧
    processRawText (("nothing here").data) = .error .noJsonFound := by
  refine ⟨?_, ?_, ?_, ?_⟩
  · have h := ((c4_marker_extraction (("###RESULT_JSON### ```json \x7b\"a\":1\x7d ```").data)).1
      ((" ```json \x7b\"a\":1\x7d ```").data) (by decide)).1 (by decide)
    rw [h]
    rfl
  · exact ((c4_marker_extraction _).2.1 (by decide)).1 (("\x7b\"b\":2\x7d").data) (by decide) (by decide)
  · exact ((c4_marker_extraction _).2.1 (by decide)).2 (by decide)
  · exact (c4_marker_extraction _).2.2.2
      (((c4_marker_extraction _).2.1 (by decide)).2 (by decide))

/- ----------------------------------------------------------------
   C5: the three-tier lenient JSON parser
   ---------------------------------------------------------------- -/

/-- C5: `safeParseJSON` first attempts a strict parse; on failure retries
after removing trailing commas before a closing brace or bracket; on
repeated failure retries on the first brace-delimited block extracted by
regex from the cleaned text; and it fails - surfaced by the pipeline as
the InvalidJson error - if and only if all three attempts fail. -/
theorem c5_safeParseJSON_tiers (t : List Char) :
    (∀ v, jsonParse t = some v → safeParseJSON t = .ok v) ∧
    (jsonParse t = none → ∀ v, jsonParse (stripTrailingCommas t) = some v →
       safeParseJSON t = .ok v) ∧
    (jsonParse t = none → jsonParse (stripTrailingCommas t) = none →
       ∀ b, braceBlock (stripTrailingCommas t) = some b →
         ∀ v, jsonParse b = some v → safeParseJSON t = .ok v) ∧
    (safeParseJSON t = .error () ↔
       (jsonParse t = none ∧ jsonParse (stripTrailingCommas t) = none ∧
        (∀ b, braceBlock (stripTrailingCommas t) = some b → jsonParse b = none))) ∧
    (∀ raw, extractCandidate raw = .ok t → safeParseJSON t = .error () →
       processRawText raw = .error .invalidJson) := by
  refine ⟨?_, ?_, ?_, ?_, ?_⟩
  · intro v hv
    unfold safeParseJSON
    rw [hv]
  · intro h1 v hv
    unfold safeParseJSON
    rw [h1]
    dsimp only
    rw [hv]
  · intro h1 h2 b hb v hv
    unfold safeParseJSON
    rw [h1]
    dsimp only
    rw [h2]
    dsimp only
    rw [hb]
    dsimp only
    rw [hv]
  · constructor
    · intro he
      unfold safeParseJSON at he
      cases h1 : jsonParse t with
      | some v => rw [h1] at he; cases he
      | none =>
        rw [h1] at he
        dsimp only at he
        cases h2 : jsonParse (stripTrailingCommas t) with
        | some v => rw [h2] at he; cases he
        | none =>
          rw [h2] at he
          dsimp only at he
          refine ⟨rfl, rfl, ?_⟩
          intro b hb
          rw [hb] at he
          dsimp only at he
          cases h3 : jsonParse b with
          | some v => rw [h3] at he; cases he
          | none => rfl
    · rintro ⟨h1, h2, h3⟩
      unfold safeParseJSON
      rw [h1]
      dsimp only
      rw [h2]
      dsimp only
      cases hb : braceBlock (stripTrailingCommas t) with
      | some b =>
        dsimp only
        rw [h3 b hb]
      | none => rfl
  · intro raw hraw he
    unfold processRawText
    rw [hraw]
    dsimp only
    rw [he]

/-- Witness for C5: a payload with a trailing comma fails the strict tier
but parses after comma cleaning, and a never-JSON candidate fails with the
error after all three tiers. -/
theorem c5_safeParseJSON_tiers_witness :
    (match safeParseJSON (("\x7b\"a\":1,\x7d").data) with
     | .ok _ => true
     | .error _ => false) = true ∧
    safeParseJSON (("xx,yy").data) = .error () := by
  constructor
  · cases hv : jsonParse (stripTrailingCommas (("\x7b\"a\":1,\x7d").data)) with
    | none =>
      exfalso
      have : (jsonParse (stripTrailingCommas (("\x7b\"a\":1,\x7d").data))).isSome = true := by
        decide
      rw [hv] at this
      cases this
    | some v =>
      have h := (c5_safeParseJSON_tiers (("\x7b\"a\":1,\x7d").data)).2.1 (by
        have : (jsonParse (("\x7b\"a\":1,\x7d").data)).isNone = true := by decide
        cases hn : jsonParse (("\x7b\"a\":1,\x7d").data) with
        | none => rfl
        | some w => rw [hn] at this; cases this) v hv
      rw [h]
  · exact (c5_safeParseJSON_tiers (("xx,yy").data)).2.2.2.1.mpr (by
      refine ⟨?_, ?_, ?_⟩
      · cases hn : jsonParse (("xx,yy").data) with
        | none => rfl
        | some w =>
          have : (jsonParse (("xx,yy").data)).isNone = true := by decide
          rw [hn] at this; cases this
      · cases hn : jsonParse (stripTrailingCommas (("xx,yy").data)) with
        | none => rfl
        | some w =>
          have : (jsonParse (stripTrailingCommas (("xx,yy").data))).isNone = true := by decide
          rw [hn] at this; cases this
      · intro b hb
        have : (braceBlock (stripTrailingCommas (("xx,yy").data))).isNone = true := by decide
        rw [hb] at this
        cases this)

/- ----------------------------------------------------------------
   C6: geminiService extractRawText
   ---------------------------------------------------------------- -/

/-- A string differs from the empty string iff its character list is
non-empty. -/
theorem str_ne_empty_iff (s : String) : s ≠ "" ↔ s.data ≠ [] := by
  constructor
  · intro h hd
    exact h (String.ext hd)
  · intro h he
    rw [he] at h
    exact h rfl

/-- The fuelled digit renderer never returns an empty list when the
accumulator is non-empty. -/
theorem natDigitsAux_ne_nil_of_acc (fuel : ℕ) :
    ∀ (n : ℕ) (acc : List Char), acc ≠ [] → natDigitsAux fuel n acc ≠ [] := by
  induction fuel with
  | zero => intro n acc h; simpa [natDigitsAux] using h
  | succ f ih =>
    intro n acc h
    simp only [natDigitsAux]
    by_cases hn : n < 10
    · simp [hn]
    · simp only [hn, if_false]
      exact ih _ _ (by simp)

/-- Decimal renderings of naturals are never empty. -/
theorem natToStr_ne_empty (n : ℕ) : natToStr n ≠ "" := by
  rw [str_ne_empty_iff]
  show natDigitsAux (n + 1) n [] ≠ []
  simp only [natDigitsAux]
  by_cases hn : n < 10
  · simp [hn]
  · simp only [hn, if_false]
    exact natDigitsAux_ne_nil_of_acc _ _ _ (by simp)

/-- Integer renderings are never empty. -/
theorem intToStr_ne_empty (i : ℤ) : intToStr i ≠ "" := by
  unfold intToStr
  by_cases hi : i < 0
  · rw [if_pos hi, str_ne_empty_iff, String.data_append]
    simp
  · rw [if_neg hi]
    exact natToStr_ne_empty _

/-- Number renderings are never empty. -/
theorem numToString_ne_empty (q : JQ) : numToString q ≠ "" := by
  unfold numToString
  by_cases hq : q.den = 1
  · rw [if_pos hq]
    exact intToStr_ne_empty _
  · rw [if_neg hq, str_ne_empty_iff, String.data_append, String.data_append]
    have := (str_ne_empty_iff (intToStr q.num)).mp (intToStr_ne_empty q.num)
    intro hbad
    rcases List.append_eq_nil.mp hbad with ⟨h1, _⟩
    rcases List.append_eq_nil.mp h1 with ⟨h2, _⟩
    exact this h2

/-- `JSON.stringify` returns `none` only on `undefined` and never returns
the empty string. -/
theorem jsonStringify_cases (v : JSValue) :
    (jsonStringify v = none → v = .vUndefined) ∧
    (∀ s, jsonStringify v = some s → s ≠ "") := by
  cases v with
  | vNull => exact ⟨(by intro h; cases h), (by intro s h; cases h; decide)⟩
  | vUndefined => exact ⟨fun _ => rfl, (by intro s h; cases h)⟩
  | vBool b =>
    refine ⟨(by intro h; cases b <;> cases h), ?_⟩
    intro s h
    cases b <;> cases h <;> decide
  | vNum q =>
    refine ⟨(by intro h; cases h), ?_⟩
    intro s h
    cases h
    exact numToString_ne_empty q
  | vNaN => exact ⟨(by intro h; cases h), (by intro s h; cases h; decide)⟩
  | vStr str =>
    refine ⟨(by intro h; cases h), ?_⟩
    intro s h
    cases h
    rw [str_ne_empty_iff]
    show ('"' :: str.data.foldr (fun c acc => escapeJsonChar c ++ acc) ['"']) ≠ []
    simp
  | vArr xs =>
    refine ⟨(by intro h; cases h), ?_⟩
    intro s h
    cases h
    rw [str_ne_empty_iff, String.data_append, String.data_append]
    simp [str_ne_empty_iff]
  | vObj fs =>
    refine ⟨(by intro h; cases h), ?_⟩
    intro s h
    cases h
    rw [str_ne_empty_iff, String.data_append, String.data_append]
    simp [str_ne_empty_iff]

/-- C6: `extractRawText` never raises (it is a total function on raw
responses, every internal failure being caught): a throwing callable
`text` accessor is swallowed (strategy 1 yields nothing and the result
coincides with extraction from the same fields without the accessor), the
five strategies are consulted in the fixed priority order (callable text,
string text field, outputText field, outputs scan, whole-object
serialization), and when every strategy fails the result is the empty
string. -/
theorem c6_extractRawText_spec :
    (∀ fields, tryTextFn (.withTextFn (.error ()) fields) = none) ∧
    (∀ fields, (jsLookup fields "text").isNone = true →
       extractRawText (.withTextFn (.error ()) fields) =
         extractRawText (.plain (.vObj fields))) ∧
    (∀ r s, tryTextFn r = some s → extractRawText r = s) ∧
    (∀ r s, tryTextFn r = none → tryTextStr r = some s → extractRawText r = s) ∧
    (∀ r s, tryTextFn r = none → tryTextStr r = none → tryOutputText r = some s →
       extractRawText r = s) ∧
    (∀ r s, tryTextFn r = none → tryTextStr r = none → tryOutputText r = none →
       tryOutputs r = some s → extractRawText r = s) ∧
    (∀ r s, tryTextFn r = none → tryTextStr r = none → tryOutputText r = none →
       tryOutputs r = none → tryStringify r = some s → extractRawText r = s) ∧
    (∀ r, tryTextFn r = none → tryTextStr r = none → tryOutputText r = none →
       tryOutputs r = none → tryStringify r = none → extractRawText r = "") := by
  refine ⟨?_, ?_, ?_, ?_, ?_, ?_, ?_, ?_⟩
  · intro fields
    rfl
  · intro fields hnone
    have hl : jsLookup fields "text" = none := by
      cases hl : jsLookup fields "text" with
      | none => rfl
      | some v => rw [hl] at hnone; cases hnone
    show extractFromStr (.withTextFn (.error ()) fields) = extractFromStr (.plain (.vObj fields))
    simp [extractFromStr, tryTextStr, tryOutputText, tryOutputs, tryStringify,
      RawResponse.getD, RawResponse.truthy, RawResponse.stringify, RawResponse.strCoerce,
      jsGetD, hl, jsTruthy, JSValue.isNullish]
  · intro r s h
    simp [extractRawText, h]
  · intro r s h1 h2
    simp [extractRawText, extractFromStr, h1, h2]
  · intro r s h1 h2 h3
    simp [extractRawText, extractFromStr, h1, h2, h3]
  · intro r s h1 h2 h3 h4
    simp [extractRawText, extractFromStr, h1, h2, h3, h4]
  · intro r s h1 h2 h3 h4 h5
    simp [extractRawText, extractFromStr, h1, h2, h3, h4, h5]
  · intro r h1 h2 h3 h4 h5
    have hr : extractRawText r = r.strCoerce := by
      simp [extractRawText, extractFromStr, h1, h2, h3, h4, h5]
    rw [hr]
    cases r with
    | withTextFn fn fields =>
      exfalso
      have : RawResponse.stringify (.withTextFn fn fields) = jsonStringify (.vObj fields) := rfl
      cases hs : jsonStringify (.vObj fields) with
      | none => exact absurd (((jsonStringify_cases (.vObj fields)).1) hs) (by simp)
      | some s =>
        have hne := ((jsonStringify_cases (.vObj fields)).2) s hs
        have : tryStringify (.withTextFn fn fields) = some s := by
          simp [tryStringify, RawResponse.stringify, hs, hne]
        rw [this] at h5
        cases h5
    | plain v =>
      cases hs : jsonStringify v with
      | some s =>
        exfalso
        have hne := ((jsonStringify_cases v).2) s hs
        have : tryStringify (.plain v) = some s := by
          simp [tryStringify, RawResponse.stringify, hs, hne]
        rw [this] at h5
        cases h5
      | none =>
        have hv : v = .vUndefined := (jsonStringify_cases v).1 hs
        subst hv
        rfl

/-- Witness for C6: a throwing text accessor falls through to the
outputText strategy; total failure (the undefined response) extracts the
empty string. -/
theorem c6_extractRawText_spec_witness :
    extractRawText (.withTextFn (.error ()) [("outputText", .vStr "hello")]) = "hello" ∧
    extractRawText (.plain .vUndefined) = "" := by
  constructor
  · exact c6_extractRawText_spec.2.2.2.2.1
      (.withTextFn (.error ()) [("outputText", .vStr "hello")]) "hello"
      (by decide) (by decide) (by decide)
  · exact c6_extractRawText_spec.2.2.2.2.2.2.2 (.plain .vUndefined)
      (by decide) (by decide) (by decide) (by decide) (by decide)

/- ----------------------------------------------------------------
   C7: the normalizer raises on a null parse result
   ---------------------------------------------------------------- -/

/-- C7 counterexample: the payload "null" is valid JSON and the lenient
parser yields JSON null for it, but the normalizer raises (a field access
on null) instead of returning an AnalysisResult; a null option record
inside `analysis` raises as well. -/
theorem c7_normalizer_raises_on_null :
    (match safeParseJSON (("null").data) with
     | .ok .vNull => true
     | _ => false) = true ∧
    (match normalize .vNull with | .error _ => true | .ok _ => false) = true ∧
    (match normalize (.vObj [("analysis", .vArr [.vNull])]) with
     | .error _ => true | .ok _ => false) = true := by
  exact ⟨by decide, by decide, by decide⟩

/-- A mapping with pointwise-successful steps succeeds. -/
theorem mapME_ok_of_all {α β : Type} (f : α → Except Unit β) :
    ∀ (xs : List α), (∀ x ∈ xs, ∃ y, f x = .ok y) → ∃ ys, mapME f xs = .ok ys
  | [], _ => ⟨[], rfl⟩
  | a :: as, h => by
    obtain ⟨y, hy⟩ := h a (List.mem_cons_self a as)
    obtain ⟨ys, hys⟩ := mapME_ok_of_all f as (fun x hx => h x (List.mem_cons_of_mem a hx))
    exact ⟨y :: ys, by simp [mapME, hy, hys]⟩

/-- Field access succeeds on every non-nullish receiver. -/
theorem jsGetField_ok (v : JSValue) (h : v.isNullish = false) (name : String) :
    jsGetField v name = .ok (jsGetD v name) := by
  cases v <;> first | rfl | (exfalso; cases h)

/-- A non-nullish criteria entry normalizes without raising. -/
theorem normalizeCA_ok (ca : JSValue) (h : ca.isNullish = false) :
    ∃ c, normalizeCA ca = .ok c := by
  unfold normalizeCA
  rw [h]
  exact ⟨_, rfl⟩

/-- An option record with non-nullish criteria entries normalizes without
raising. -/
theorem normalizeOption_ok (a : JSValue) (ha : a.isNullish = false)
    (hca : ∀ ca ∈ locatedCriteria a, ca.isNullish = false) :
    ∃ o, normalizeOption a = .ok o := by
  obtain ⟨cs, hcs⟩ := mapME_ok_of_all normalizeCA (locatedCriteria a)
    (fun ca hmem => normalizeCA_ok ca (hca ca hmem))
  unfold normalizeOption
  rw [ha]
  dsimp only
  rw [hcs]
  exact ⟨_, rfl⟩

/-- C7 (amended): for every value produced by the lenient JSON parser whose
root is not null and in which no located option record or criteria entry is
null (`normSafe`), the normalizer never raises: it returns an
AnalysisResult, absorbing missing fields, wrong types and unexpected
nesting by field-name fallback and defaulting.  (A null root - or a null
record - raises a TypeError, per the counterexample.) -/
theorem c7_normalizer_total_on_normSafe (s : List Char) (t : JSValue)
    (_hp : safeParseJSON s = .ok t) (hs : normSafe t = true) :
    ∃ r, normalize t = .ok r := by
  have hroot : t.isNullish = false := by
    have := (Bool.and_eq_true _ _).mp hs |>.1
    simpa using this
  have hrecs := (Bool.and_eq_true _ _).mp hs |>.2
  rw [List.all_eq_true] at hrecs
  obtain ⟨os, hos⟩ := mapME_ok_of_all normalizeOption (locatedAnalysis t) (by
    intro a hmem
    have ha := hrecs a hmem
    have ha1 : a.isNullish = false := by
      have := (Bool.and_eq_true _ _).mp ha |>.1
      simpa using this
    have ha2 := (Bool.and_eq_true _ _).mp ha |>.2
    rw [List.all_eq_true] at ha2
    exact normalizeOption_ok a ha1 (fun ca hca => by simpa using ha2 ca hca))
  unfold normalize
  rw [jsGetField_ok t hroot "analysis"]
  dsimp only
  rw [hos]
  exact ⟨_, rfl⟩

/-- Witness for C7 (amended): the empty-object payload parses and
normalizes without raising. -/
theorem c7_normalizer_total_on_normSafe_witness :
    (match safeParseJSON (("\x7b\x7d").data) with
     | .ok t => (match normalize t with | .ok _ => true | .error _ => false)
     | .error _ => false) = true := by
  cases hp : safeParseJSON (("\x7b\x7d").data) with
  | error e =>
    exfalso
    have : (match safeParseJSON (("\x7b\x7d").data) with
            | .ok _ => true | .error _ => false) = true := by decide
    rw [hp] at this
    cases this
  | ok t =>
    obtain ⟨r, hr⟩ := c7_normalizer_total_on_normSafe (("\x7b\x7d").data) t hp (by
      have : (match safeParseJSON (("\x7b\x7d").data) with
              | .ok u => normSafe u | .error _ => false) = true := by decide
      rw [hp] at this
      exact this)
    dsimp only
    rw [hr]

/- ----------------------------------------------------------------
   C10: API key resolution
   ---------------------------------------------------------------- -/

/-- C10: when neither `process.env.API_KEY` nor `globalThis.__API_KEY__`
holds a non-empty string, `analyzeDecision` fails with the missing-key
error whatever the model would respond - the outcome is independent of the
response, so the failure precedes any prompt construction or model
invocation - and the environment is unchanged; when only the global
fallback holds a non-empty string, it is copied into
`process.env.API_KEY` (a process-wide mutation observable after the call)
and the pipeline proceeds on the response. -/
theorem c10_api_key_resolution (envKey globalKey : Option String) (response : RawResponse) :
    ((envKey = none ∨ envKey = some "") → (globalKey = none ∨ globalKey = some "") →
       analyzeDecisionModel envKey globalKey response = (.error .missingApiKey, envKey)) ∧
    ((envKey = none ∨ envKey = some "") → ∀ k, k ≠ "" → globalKey = some k →
       analyzeDecisionModel envKey globalKey response =
         (analyzeDecisionModel.matchResponse response, some k)) := by
  constructor
  · intro he hg
    unfold analyzeDecisionModel
    rcases he with he | he <;> rcases hg with hg | hg <;> subst he <;> subst hg <;> simp
  · intro he k hk hg
    subst hg
    unfold analyzeDecisionModel
    rcases he with he | he <;> subst he <;> simp [hk]

/-- Witness for C10: with no environment key, the global key "KEY" is
copied into the environment and processing proceeds; with neither key the
call fails with the missing-key error. -/
theorem c10_api_key_resolution_witness :
    analyzeDecisionModel none (some "KEY") (.plain .vNull) =
      (analyzeDecisionModel.matchResponse (.plain .vNull), some "KEY") ∧
    analyzeDecisionModel none none (.plain .vNull) = (.error .missingApiKey, none) := by
  constructor
  · exact (c10_api_key_resolution none (some "KEY") (.plain .vNull)).2
      (Or.inl rfl) "KEY" (by decide) rfl
  · exact (c10_api_key_resolution none none (.plain .vNull)).1 (Or.inl rfl) (Or.inl rfl)

/- ----------------------------------------------------------------
   C8: round-trip of conformant payloads
   ---------------------------------------------------------------- -/

/-- The suffix after the first occurrence of a marker placed at the head. -/
theorem splitAfterMarker_append (m x : List Char) (h : m ≠ []) :
    splitAfterMarker m (m ++ x) = some x := by
  cases m with
  | nil => exact absurd rfl h
  | cons a as =>
    have hpre : (a :: as).isPrefixOf ((a :: as) ++ x) = true :=
      List.isPrefixOf_iff_prefix.mpr (List.prefix_append _ _)
    rw [List.cons_append] at hpre
    show splitAfterMarker (a :: as) (a :: (as ++ x)) = some x
    unfold splitAfterMarker
    rw [if_pos hpre]
    exact congrArg some (List.drop_left (a :: as) x)

/-- Trimming is the identity on a list with no leading and no trailing
white-space. -/
theorem jsTrim_eq_self (s : List Char) (h1 : s.dropWhile isJsWs = s)
    (h2 : s.reverse.dropWhile isJsWs = s.reverse) : jsTrim s = s := by
  unfold jsTrim
  rw [h1, h2, List.reverse_reverse]

/-- Fence stripping and trimming leave a trimmed brace-delimited payload
untouched (after the newline separating it from the marker). -/
theorem cleanCandidate_plain (s : List Char) (h1 : s.dropWhile isJsWs = s)
    (h2 : s.reverse.dropWhile isJsWs = s.reverse)
    (hh : s.head? = some lbrace) (hl : s.getLast? = some rbrace) :
    cleanCandidate ('\n' :: s) = s := by
  obtain ⟨s', rfl⟩ : ∃ s', s = lbrace :: s' := by
    cases s with
    | nil => cases hh
    | cons c cs =>
      refine ⟨cs, ?_⟩
      have : c = lbrace := by
        have := hh
        simp [List.head?] at this
        rw [this]
      rw [this]
  have htrim0 : jsTrim ('\n' :: (lbrace :: s')) = lbrace :: s' := by
    unfold jsTrim
    rw [show List.dropWhile isJsWs ('\n' :: (lbrace :: s')) =
        List.dropWhile isJsWs (lbrace :: s') from by simp [List.dropWhile, isJsWs]]
    rw [h1, h2, List.reverse_reverse]
  unfold cleanCandidate
  rw [htrim0]
  rw [show stripLeadingFenceJson (lbrace :: s') = lbrace :: s' from rfl]
  rw [show stripLeadingFenceBare (lbrace :: s') = lbrace :: s' from rfl]
  have hrev : ∃ rr, (lbrace :: s').reverse = rbrace :: rr := by
    have hrh : (lbrace :: s').reverse.head? = some rbrace := by
      rw [List.head?_reverse]
      exact hl
    cases hr : (lbrace :: s').reverse with
    | nil => rw [hr] at hrh; cases hrh
    | cons d ds =>
      rw [hr] at hrh
      simp [List.head?] at hrh
      exact ⟨ds, by rw [hrh]⟩
  obtain ⟨rr, hrr⟩ := hrev
  have hstf : stripTrailingFence (lbrace :: s') = lbrace :: s' := by
    unfold stripTrailingFence
    rw [show (lbrace :: s').reverse.dropWhile isJsWs = (lbrace :: s').reverse from h2, hrr]
    rw [if_neg ?_]
    intro hbad
    have : rbrace = btick := by
      have := congrArg (fun l => l.head?) hbad
      simpa [List.take] using this
    exact absurd this (by decide)
  rw [hstf]
  exact jsTrim_eq_self _ h1 h2

/-- The pipeline extracts exactly the payload placed after the marker. -/
theorem extractCandidate_marker_payload (s : List Char)
    (h1 : s.dropWhile isJsWs = s) (h2 : s.reverse.dropWhile isJsWs = s.reverse)
    (hh : s.head? = some lbrace) (hl : s.getLast? = some rbrace) :
    extractCandidate (markerChars ++ '\n' :: s) = .ok s := by
  have hsplit := splitAfterMarker_append markerChars ('\n' :: s) (by decide)
  have hclean := cleanCandidate_plain s h1 h2 hh hl
  have hne : s.isEmpty = false := by
    cases s with
    | nil => cases hh
    | cons c cs => rfl
  unfold extractCandidate
  rw [hsplit]
  dsimp only
  rw [hclean, hne]
  rfl

/-- A non-nullish value wins a nullish coalescing. -/
theorem jsCoalesce_not_nullish (a b : JSValue) (h : a.isNullish = false) :
    jsCoalesce a b = a := by
  unfold jsCoalesce
  rw [h]
  rfl

/-- `clampScore` is the identity on an integral score within range. -/
theorem clampScore_goodScore (q : JQ) (h : goodScore q = true) :
    clampScore (.vNum q) = q.num := by
  obtain ⟨⟨hden, hnum0⟩, hnum100⟩ : (q.den = 1 ∧ 0 ≤ q.num) ∧ q.num ≤ 100 := by
    simpa [goodScore, Bool.and_eq_true, decide_eq_true_eq] using h
  unfold clampScore
  by_cases hz : q.num = 0
  · have htr : jsTruthy (.vNum q) = false := by simp [jsTruthy, JQ.isZero, hz]
    unfold jsOr
    rw [htr]
    simp only [Bool.false_eq_true, if_false]
    show (if (JQ.ofInt 0).isNeg = true then (0 : ℤ)
          else if (JQ.ofInt 0).gt100 = true then 100 else jround (JQ.ofInt 0)) = q.num
    rw [hz]
    decide
  · have htr : jsTruthy (.vNum q) = true := by simp [jsTruthy, JQ.isZero, hz]
    unfold jsOr
    rw [htr]
    simp only [if_true]
    show (if q.isNeg = true then (0 : ℤ) else if q.gt100 = true then 100 else jround q) = q.num
    have hng : q.isNeg = false := by simp [JQ.isNeg, not_lt, hnum0]
    have hngt : q.gt100 = false := by
      simp [JQ.gt100, not_lt]
      omega
    rw [hng, hngt]
    simp only [Bool.false_eq_true, if_false]
    unfold jround
    rw [hden]
    rw [Int.fdiv_eq_ediv _ (by norm_num)]
    omega

/-- A conformant criteria object normalizes to a record carrying its
identifier and score, also after the second pass. -/
theorem normalizeCA_conformant (ca : JSValue) (h : conformantCA ca = true) :
    ∃ c, normalizeCA ca = .ok c ∧ caMatches (renormalizeCA c) ca = true := by
  cases ca with
  | vObj fs =>
    simp only [conformantCA, Bool.and_eq_true] at h
    obtain ⟨⟨⟨hcid, hsc⟩, _⟩, _⟩ := h
    cases hcidv : jsGetD (.vObj fs) "criteriaId" with
    | vStr cid =>
      cases hscv : jsGetD (.vObj fs) "score" with
      | vNum q =>
        rw [hscv] at hsc
        have hgood : goodScore q = true := hsc
        have hq2 : goodScore (JQ.ofInt q.num) = true := by
          simp only [goodScore, Bool.and_eq_true, decide_eq_true_eq] at hgood ⊢
          exact ⟨⟨rfl, hgood.1.2⟩, hgood.2⟩
        refine ⟨_, rfl, ?_⟩
        simp [caMatches, renormalizeCA, hcidv, hscv, jsCoalesce_not_nullish,
          JSValue.isNullish, clampScore_goodScore q hgood,
          clampScore_goodScore (JQ.ofInt q.num) hq2]
        rfl
      | vNull => rw [hscv] at hsc; cases hsc
      | vUndefined => rw [hscv] at hsc; cases hsc
      | vBool b => rw [hscv] at hsc; cases hsc
      | vNaN => rw [hscv] at hsc; cases hsc
      | vStr s2 => rw [hscv] at hsc; cases hsc
      | vArr xs => rw [hscv] at hsc; cases hsc
      | vObj fs2 => rw [hscv] at hsc; cases hsc
    | vNull => rw [hcidv] at hcid; cases hcid
    | vUndefined => rw [hcidv] at hcid; cases hcid
    | vBool b => rw [hcidv] at hcid; cases hcid
    | vNum q => rw [hcidv] at hcid; cases hcid
    | vNaN => rw [hcidv] at hcid; cases hcid
    | vArr xs => rw [hcidv] at hcid; cases hcid
    | vObj fs2 => rw [hcidv] at hcid; cases hcid
  | vNull => cases h
  | vUndefined => cases h
  | vBool b => cases h
  | vNum q => cases h
  | vNaN => cases h
  | vStr s2 => cases h
  | vArr xs => cases h

/-- Pointwise normalization of a conformant criteria list. -/
theorem mapME_normalizeCA_conformant (cas : List JSValue)
    (h : cas.all conformantCA = true) :
    ∃ cs, mapME normalizeCA cas = .ok cs ∧
      listAll2 caMatches (cs.map renormalizeCA) cas = true := by
  induction cas with
  | nil => exact ⟨[], rfl, rfl⟩
  | cons ca rest ih =>
    rw [List.all_cons, Bool.and_eq_true] at h
    obtain ⟨c, hc, hm⟩ := normalizeCA_conformant ca h.1
    obtain ⟨cs, hcs, hms⟩ := ih h.2
    refine ⟨c :: cs, ?_, ?_⟩
    · simp [mapME, hc, hcs]
    · simp [listAll2, hm, hms]

/-- A conformant option object normalizes to a record carrying its
identifier and all criteria identifiers and scores. -/
theorem normalizeOption_conformant (a : JSValue) (h : conformantOpt a = true) :
    ∃ o, normalizeOption a = .ok o ∧ optMatches (renormalizeOption o) a = true := by
  cases a with
  | vObj fs =>
    simp only [conformantOpt, Bool.and_eq_true] at h
    obtain ⟨⟨⟨hoid, hca⟩, _⟩, _⟩ := h
    cases hoidv : jsGetD (.vObj fs) "optionId" with
    | vStr oid =>
      cases hcav : jsGetD (.vObj fs) "criteriaAnalysis" with
      | vArr cas =>
        rw [hcav] at hca
        obtain ⟨cs, hcs, hms⟩ := mapME_normalizeCA_conformant cas hca
        have hloc : locatedCriteria (.vObj fs) = cas := by
          unfold locatedCriteria
          rw [hcav, jsCoalesce_not_nullish (JSValue.vArr cas) _ rfl]
        have hok : normalizeOption (.vObj fs) = .ok
            { optionId := jsToString (jsCoalesce (jsGetD (.vObj fs) "optionId")
                (jsCoalesce (jsGetD (.vObj fs) "option_id")
                  (jsCoalesce (jsGetD (.vObj fs) "opt_id")
                    (jsCoalesce (jsGetD (.vObj fs) "id") (.vStr "unknown")))))
              criteriaAnalysis := cs
              pros := resolveStrList (.vObj fs) "pros" "positives"
              cons := resolveStrList (.vObj fs) "cons" "negatives" } := by
          unfold normalizeOption
          rw [show (JSValue.vObj fs).isNullish = false from rfl]
          dsimp only
          rw [hloc, hcs]
          rfl
        refine ⟨_, hok, ?_⟩
        simp only [optMatches, renormalizeOption, hoidv, Bool.and_eq_true]
        constructor
        · rw [jsCoalesce_not_nullish (JSValue.vStr oid) _ rfl]
          simp [jsToString]
        · rw [show (match jsGetD (JSValue.vObj fs) "criteriaAnalysis" with
                    | JSValue.vArr cas => cas
                    | _ => ([] : List JSValue)) = cas from by rw [hcav]]
          exact hms
      | vNull => rw [hcav] at hca; cases hca
      | vUndefined => rw [hcav] at hca; cases hca
      | vBool b => rw [hcav] at hca; cases hca
      | vNum q => rw [hcav] at hca; cases hca
      | vNaN => rw [hcav] at hca; cases hca
      | vStr s2 => rw [hcav] at hca; cases hca
      | vObj fs2 => rw [hcav] at hca; cases hca
    | vNull => rw [hoidv] at hoid; cases hoid
    | vUndefined => rw [hoidv] at hoid; cases hoid
    | vBool b => rw [hoidv] at hoid; cases hoid
    | vNum q => rw [hoidv] at hoid; cases hoid
    | vNaN => rw [hoidv] at hoid; cases hoid
    | vArr xs => rw [hoidv] at hoid; cases hoid
    | vObj fs2 => rw [hoidv] at hoid; cases hoid
  | vNull => cases h
  | vUndefined => cases h
  | vBool b => cases h
  | vNum q => cases h
  | vNaN => cases h
  | vStr s2 => cases h
  | vArr xs => cases h

/-- Pointwise normalization of a conformant option list. -/
theorem mapME_normalizeOption_conformant (xs : List JSValue)
    (h : xs.all conformantOpt = true) :
    ∃ os, mapME normalizeOption xs = .ok os ∧
      listAll2 optMatches (os.map renormalizeOption) xs = true := by
  induction xs with
  | nil => exact ⟨[], rfl, rfl⟩
  | cons a rest ih =>
    rw [List.all_cons, Bool.and_eq_true] at h
    obtain ⟨o, ho, hm⟩ := normalizeOption_conformant a h.1
    obtain ⟨os, hos, hms⟩ := ih h.2
    refine ⟨o :: os, ?_, ?_⟩
    · simp [mapME, ho, hos]
    · simp [listAll2, hm, hms]

/-- Matching only depends on the analysis sequence. -/
theorem resultMatches_congr (r r' : SherlockResult) (t : JSValue)
    (h : r.analysis = r'.analysis) : resultMatches r t = resultMatches r' t := by
  unfold resultMatches
  rw [h]

/-- The normalizer round-trips a conformant payload tree. -/
theorem normalize_conformant (t : JSValue) (hc : conformantResult t = true) :
    ∃ r, normalize t = .ok r ∧ resultMatches r t = true := by
  cases t with
  | vObj fs =>
    simp only [conformantResult, Bool.and_eq_true] at hc
    obtain ⟨⟨⟨han, _⟩, _⟩, _⟩ := hc
    cases hanv : jsGetD (.vObj fs) "analysis" with
    | vArr xs =>
      rw [hanv] at han
      obtain ⟨os, hos, hms⟩ := mapME_normalizeOption_conformant xs han
      have hloc : locatedAnalysis (.vObj fs) = xs := by
        unfold locatedAnalysis
        rw [hanv, jsCoalesce_not_nullish (JSValue.vArr xs) _ rfl]
        rfl
      have hok : normalize (.vObj fs) = .ok
          { analysis := os.map renormalizeOption
            verdict := jsCoalesce (jsGetD (.vObj fs) "verdict")
              (jsCoalesce (jsGetD (.vObj fs) "summary")
                (jsCoalesce (jsGetD (.vObj fs) "verdict_text") (.vStr "")))
            winnerId := jsCoalesce (jsGetD (.vObj fs) "winnerId")
              (jsCoalesce (jsGetD (.vObj fs) "winner_id")
                (jsCoalesce (jsGetD (.vObj fs) "winner") (.vStr "")))
            recommendation := jsCoalesce (jsGetD (.vObj fs) "recommendation")
              (jsCoalesce (jsGetD (.vObj fs) "advice") (.vStr ""))
            summary := jsCoalesce (jsGetD (.vObj fs) "summary") .vUndefined
            topRisks := jsCoalesce (jsGetD (.vObj fs) "topRisks")
              (jsCoalesce (jsGetD (.vObj fs) "risks") .vUndefined)
            nextSteps := jsCoalesce (jsGetD (.vObj fs) "nextSteps")
              (jsCoalesce (jsGetD (.vObj fs) "actions") .vUndefined) } := by
        unfold normalize
        rw [jsGetField_ok (JSValue.vObj fs) rfl "analysis"]
        dsimp only
        rw [hloc, hos]
      refine ⟨_, hok, ?_⟩
      simp only [resultMatches]
      rw [show (match jsGetD (JSValue.vObj fs) "analysis" with
                | JSValue.vArr ys => ys
                | _ => ([] : List JSValue)) = xs from by rw [hanv]]
      exact hms
    | vNull => rw [hanv] at han; cases han
    | vUndefined => rw [hanv] at han; cases han
    | vBool b => rw [hanv] at han; cases han
    | vNum q => rw [hanv] at han; cases han
    | vNaN => rw [hanv] at han; cases han
    | vStr s2 => rw [hanv] at han; cases han
    | vObj fs2 => rw [hanv] at han; cases han
  | vNull => cases hc
  | vUndefined => cases hc
  | vBool b => cases hc
  | vNum q => cases hc
  | vNaN => cases hc
  | vStr s2 => cases hc
  | vArr xs => cases hc

/-- C8: every JSON payload already conforming to the advertised
AnalysisResult schema (canonical field names, integral scores within
[0, 100]), embedded after the sentinel marker, is round-tripped by the
pipeline to an equivalent AnalysisResult: same number of option analyses,
same option and criteria identifiers, same scores. -/
theorem c8_roundtrip_conformant (s : List Char) (t : JSValue)
    (hp : jsonParse s = some t) (hc : conformantResult t = true)
    (h1 : s.dropWhile isJsWs = s) (h2 : s.reverse.dropWhile isJsWs = s.reverse)
    (hh : s.head? = some lbrace) (hl : s.getLast? = some rbrace) :
    ∃ r, processRawText (markerChars ++ '\n' :: s) = .ok r ∧ resultMatches r t = true := by
  obtain ⟨r0, hn, hm⟩ := normalize_conformant t hc
  have hex := extractCandidate_marker_payload s h1 h2 hh hl
  have hsp : safeParseJSON s = .ok t := by
    unfold safeParseJSON
    rw [hp]
  refine ⟨inferWinner r0, ?_, ?_⟩
  · unfold processRawText
    rw [hex]
    dsimp only
    rw [hsp]
    dsimp only
    rw [hn]
  · rw [resultMatches_congr (inferWinner r0) r0 t (inferWinner_frame_fields r0).1]
    exact hm

/-- Witness for C8: the two-option conformant payload round-trips through
the full pipeline to a matching result. -/
theorem c8_roundtrip_conformant_witness :
    (match processRawText (markerChars ++ '\n' :: conformantPayload.data) with
     | .ok r =>
       (match jsonParse conformantPayload.data with
        | some t => resultMatches r t
        | none => false)
     | .error _ => false) = true := by
  cases ht : jsonParse conformantPayload.data with
  | none =>
    exfalso
    have : (jsonParse conformantPayload.data).isSome = true := by decide
    rw [ht] at this
    cases this
  | some t =>
    have hc : conformantResult t = true := by
      have : (match jsonParse conformantPayload.data with
              | some u => conformantResult u
              | none => false) = true := by decide
      rw [ht] at this
      exact this
    obtain ⟨r, hr, hm⟩ := c8_roundtrip_conformant conformantPayload.data t ht hc
      (by decide) (by decide) (by decide) (by decide)
    rw [hr]
    dsimp only
    exact hm

end Sherlock
